import Mathlib

/-!
Verification of the MultiFX device-synchronized configuration subsystem.

The definitions below are a shallow embedding of the Python sources
`src/gui/src/offboard.py` and `src/gui/src/plugin_manager.py`.  Filesystem
state is modelled as an ordered listing of named entries (the listing order
models the order in which `scandir` yields entries); machine-level details
(bytes on disk, handles) are abstracted but every control-flow decision of
the source is preserved.
-/

namespace MultiFX

/-! ## Filesystem model -/

/-- A filesystem entry: a file with its content, or a directory with an
ordered listing of named children. -/
inductive Entry : Type where
  | file : String → Entry
  | dir : List (String × Entry) → Entry

/-- A storage root (an opened `fs` object): its ordered top-level listing. -/
abbrev FSRoot := List (String × Entry)

def Entry.isDir : Entry → Bool
  | .dir _ => true
  | .file _ => false

/-- `fs.exists(name)` for a top-level `name`. -/
def fsExists (r : FSRoot) (name : String) : Bool :=
  r.any (fun p => p.1 == name)

/-- Look up the (first) entry bound to `name`; models opening a path. -/
def lookupEntry (r : FSRoot) (name : String) : Option Entry :=
  (r.find? (fun p => p.1 == name)).map (fun p => p.2)

/-- `fs.isdir(name)` for a top-level `name`. -/
def fsIsDir (r : FSRoot) (name : String) : Bool :=
  match lookupEntry r name with
  | some (.dir _) => true
  | _ => false

/-- `fs.removetree(name)` and `fs.remove(name)`: both drop the binding
(`removetree` is used on directories, `remove` on files; in this model a
binding together with its subtree is removed in one step either way). -/
def fsRemove (r : FSRoot) (name : String) : FSRoot :=
  r.filter (fun p => p.1 != name)

/-- `fs.makedir(name, recreate=True)`: create an empty directory if the path
is absent, leave an existing directory in place.  (Every call site in
`offboard.py` only reaches this with `name` absent or already a directory.) -/
def fsMakedir (r : FSRoot) (name : String) : FSRoot :=
  if fsExists r name then r else r ++ [(name, .dir [])]

/-- Shallow merge used by `copy_dir`: the source's children are copied over
the destination's, destination-only children survive.  At the single call
site (`copy_subdir`) the destination directory was just recreated empty, so
this coincides with `fs.copy.copy_dir`'s recursive copy. -/
def mergeChildren (d c : List (String × Entry)) : List (String × Entry) :=
  d.filter (fun p => ¬ c.any (fun q => q.1 == p.1)) ++ c

/-- `fs.copy.copy_dir(src_fs, sname, dest_fs, dname)`.  `none` models an
uncaught filesystem exception (source or destination path not a directory). -/
def copy_dir (src : FSRoot) (sname : String) (dest : FSRoot) (dname : String) :
    Option FSRoot :=
  match lookupEntry src sname with
  | some (.dir c) =>
    match lookupEntry dest dname with
    | some (.dir d) =>
      some (dest.map (fun p => if p.1 == dname then (p.1, Entry.dir (mergeChildren d c)) else p))
    | _ => none
  | _ => none

/-- `offboard.copy_subdir` (offboard.py lines 106-118): replace a destination
subdirectory with contents from the source if present.  `none` models an
uncaught exception (only reachable when `src/subdir` exists but is a file,
where `fs.copy.copy_dir` raises). -/
def copy_subdir (src_fs dest_fs : FSRoot) (subdir : String) : Option FSRoot :=
  let dest₁ :=
    if fsExists dest_fs subdir then
      if fsIsDir dest_fs subdir then fsRemove dest_fs subdir
      else fsRemove dest_fs subdir
    else dest_fs
  let dest₂ := fsMakedir dest₁ subdir
  if fsExists src_fs subdir then copy_dir src_fs subdir dest₂ subdir
  else some dest₂

/-! ## Basic filesystem lemmas -/

theorem fsExists_eq_false_iff {r : FSRoot} {n : String} :
    fsExists r n = false ↔ ∀ p ∈ r, p.1 ≠ n := by
  simp [fsExists, List.any_eq_false]

theorem fsRemove_of_not_exists {r : FSRoot} {n : String}
    (h : fsExists r n = false) : fsRemove r n = r := by
  rw [fsRemove, List.filter_eq_self]
  intro p hp
  simpa using (fsExists_eq_false_iff.mp h) p hp

theorem fsExists_fsRemove (r : FSRoot) (n : String) :
    fsExists (fsRemove r n) n = false := by
  rw [fsExists_eq_false_iff]
  intro p hp
  have := List.of_mem_filter hp
  simpa using this

theorem lookupEntry_isSome_of_exists {r : FSRoot} {n : String}
    (h : fsExists r n = true) : ∃ e, lookupEntry r n = some e := by
  have h1 : ∃ p, p ∈ r ∧ (p.1 == n) = true := by
    simpa [fsExists, List.any_eq_true] using h
  have h2 : (r.find? (fun p => p.1 == n)).isSome := List.find?_isSome.mpr h1
  rcases Option.isSome_iff_exists.mp h2 with ⟨q, hq⟩
  exact ⟨q.2, by simp [lookupEntry, hq]⟩

theorem fsExists_of_lookupEntry {r : FSRoot} {n : String} {e : Entry}
    (h : lookupEntry r n = some e) : fsExists r n = true := by
  rcases Option.map_eq_some'.mp h with ⟨p, hp, _⟩
  have hmem := List.mem_of_find?_eq_some hp
  have hpn := List.find?_some hp
  simp only [fsExists, List.any_eq_true]
  exact ⟨p, hmem, hpn⟩

theorem lookupEntry_append_singleton (r : FSRoot) (n : String) (e : Entry)
    (h : fsExists r n = false) :
    lookupEntry (r ++ [(n, e)]) n = some e := by
  induction r with
  | nil => simp [lookupEntry, List.find?]
  | cons p r ih =>
    have h1 : p.1 ≠ n := (fsExists_eq_false_iff.mp h) p (by simp)
    have h2 : fsExists r n = false := by
      rw [fsExists_eq_false_iff]
      intro q hq
      exact (fsExists_eq_false_iff.mp h) q (by simp [hq])
    have hb : (p.1 == n) = false := by simpa using h1
    have ih' := ih h2
    simp only [lookupEntry, List.cons_append, List.find?, hb] at ih' ⊢
    exact ih'

theorem map_rename_of_not_exists {r : FSRoot} {n : String}
    (h : fsExists r n = false) (f : String × Entry → String × Entry) :
    (r.map (fun p => if p.1 == n then f p else p)) = r := by
  induction r with
  | nil => rfl
  | cons p r ih =>
    have h1 : p.1 ≠ n := (fsExists_eq_false_iff.mp h) p (by simp)
    have h2 : fsExists r n = false := by
      rw [fsExists_eq_false_iff]
      intro q hq
      exact (fsExists_eq_false_iff.mp h) q (by simp [hq])
    simp only [List.map_cons]
    rw [if_neg (by simp [h1]), ih h2]

/-! ## C1: copy_subdir mirrors a subtree -/

/-- C1: for all storage roots `src`, `dest` and every subtree name, after
`copy_subdir src dest name` the destination binds `name` to a directory whose
contents equal those of `src/name`: any pre-existing `dest/name` (file or
directory) is removed first, and if `src/name` does not exist the result
binds `name` to an empty directory. -/
theorem copy_subdir_spec (src dest : FSRoot) (name : String) :
    (fsExists src name = false →
      copy_subdir src dest name = some (fsRemove dest name ++ [(name, Entry.dir [])]))
    ∧ (∀ c, lookupEntry src name = some (Entry.dir c) →
      copy_subdir src dest name = some (fsRemove dest name ++ [(name, Entry.dir c)])) := by
  have hdest₂ : fsMakedir (fsRemove dest name) name
      = fsRemove dest name ++ [(name, Entry.dir [])] := by
    simp [fsMakedir, fsExists_fsRemove]
  have key : copy_subdir src dest name =
      (if fsExists src name then
        copy_dir src name (fsRemove dest name ++ [(name, Entry.dir [])]) name
       else some (fsRemove dest name ++ [(name, Entry.dir [])])) := by
    by_cases hd : fsExists dest name
    · simp [copy_subdir, hd, hdest₂]
    · have hr := fsRemove_of_not_exists (r := dest) (n := name) (by simpa using hd)
      simp [copy_subdir, hd, fsMakedir, hr]
  constructor
  · intro hsrc
    rw [key]
    simp [hsrc]
  · intro c hc
    have hsrc : fsExists src name = true := fsExists_of_lookupEntry hc
    have hlook : lookupEntry (fsRemove dest name ++ [(name, Entry.dir [])]) name
        = some (Entry.dir []) :=
      lookupEntry_append_singleton _ _ _ (fsExists_fsRemove dest name)
    rw [key]
    simp only [hsrc, if_true, copy_dir, hc, hlook]
    congr 1
    rw [List.map_append, map_rename_of_not_exists (fsExists_fsRemove dest name)]
    simp [mergeChildren]

/-- Witness for C1 at concrete roots: a pre-existing destination file named
`profiles` is replaced by a copy of the source subtree, and with an empty
source the destination ends with an empty `profiles` directory. -/
theorem copy_subdir_spec_witness :
    copy_subdir [("profiles", Entry.dir [("a.json", Entry.file "A")])]
        [("profiles", Entry.file "junk"), ("x", Entry.dir [])] "profiles"
      = some [("x", Entry.dir []),
              ("profiles", Entry.dir [("a.json", Entry.file "A")])] ∧
    copy_subdir [] [("profiles", Entry.file "junk"), ("x", Entry.dir [])] "profiles"
      = some [("x", Entry.dir []), ("profiles", Entry.dir [])] :=
  ⟨((copy_subdir_spec [("profiles", Entry.dir [("a.json", Entry.file "A")])]
      [("profiles", Entry.file "junk"), ("x", Entry.dir [])] "profiles").2
      [("a.json", Entry.file "A")] rfl).trans (by rfl),
   ((copy_subdir_spec [] [("profiles", Entry.file "junk"), ("x", Entry.dir [])]
      "profiles").1 rfl).trans (by rfl)⟩

/-! ## Layout migrator -/

/-- Modelled from the spec: the structured-layout folder names.  In
`offboard.py` `PROFILES_FOLDER`/`PLUGINS_FOLDER` are the basenames of
`profiles_dir`/`plugins_dir` imported from the `utils` module, which is not
among the sources; the spec fixes the structured layout to the
subdirectories "profiles" and "plugins". -/
def PROFILES_FOLDER : String := "profiles"

/-- Modelled from the spec: see `PROFILES_FOLDER`. -/
def PLUGINS_FOLDER : String := "plugins"

/-- A filesystem mutation performed by the migrator; `migrate_flat_layout`
returns the list of mutations it performed alongside the new state, so that
"zero mutations" is an observable property. -/
inductive MutOp : Type where
  | makedir : String → MutOp
  | move : String → String → MutOp

/-- Append a named child to a directory entry. -/
def appendChild : Entry → (String × Entry) → Entry
  | .dir es, kv => .dir (es ++ [kv])
  | e, _ => e

/-- `fs.move(name, destDir + "/" + name)`: detach the top-level binding
`name` and append it to the children of the directory `destDir`. -/
def fsMove (r : FSRoot) (name destDir : String) : FSRoot :=
  match lookupEntry r name with
  | none => r
  | some e =>
    (fsRemove r name).map
      (fun p => if p.1 == destDir then (p.1, appendChild p.2 (name, e)) else p)

/-- Suffix test used by the migrator: `entry.name.lower().endswith(".json")`
(offboard.py line 93), modelled at the character level (ASCII case folding,
which agrees with `str.lower` on the ASCII file names involved). -/
def isJsonName (n : String) : Bool :=
  ".json".data.isSuffixOf (n.data.map Char.toLower)

/-- Destination directory chosen for a loose file name (offboard.py line 93):
profiles for a case-insensitive ".json" suffix, plugins otherwise. -/
def destOf (n : String) : String :=
  if isJsonName n then PROFILES_FOLDER else PLUGINS_FOLDER

/-- The per-entry loop of `migrate_flat_layout` (offboard.py lines 90-96),
run over the snapshot `entries` of the top-level listing taken before any
mutation (`list(target_fs.scandir(""))`). -/
def migrateLoop : List (String × Entry) → FSRoot → FSRoot × List MutOp
  | [], r => (r, [])
  | (n, e) :: rest, r =>
    if e.isDir then migrateLoop rest r
    else
      let destDir := destOf n
      let step :=
        if fsExists r destDir then (r, ([] : List MutOp))
        else (r ++ [(destDir, Entry.dir [])], [MutOp.makedir destDir])
      let next := migrateLoop rest (fsMove step.1 n destDir)
      (next.1, step.2 ++ MutOp.move n destDir :: next.2)

/-- The closing `if not has_profiles / if not has_plugins` makedir pair of
`migrate_flat_layout` (offboard.py lines 100-103); the flags are the ones the
source recorded before this point. -/
def finishStep (r : FSRoot) (has_profiles has_plugins : Bool) :
    FSRoot × List MutOp :=
  let s₂ :=
    if !has_profiles then
      (fsMakedir r PROFILES_FOLDER, [MutOp.makedir PROFILES_FOLDER])
    else (r, [])
  let s₃ :=
    if !has_plugins then
      (fsMakedir s₂.1 PLUGINS_FOLDER, [MutOp.makedir PLUGINS_FOLDER])
    else (s₂.1, [])
  (s₃.1, s₂.2 ++ s₃.2)

/-- `offboard.migrate_flat_layout` (offboard.py lines 83-103): ensure the
profiles/plugins layout exists, migrating flat files if needed.  Returns the
new root and the mutations performed.  Note that the source recomputes
`has_profiles`/`has_plugins` only inside the migration branch. -/
def migrate_flat_layout (target_fs : FSRoot) : FSRoot × List MutOp :=
  let has_profiles := fsExists target_fs PROFILES_FOLDER
  let has_plugins := fsExists target_fs PLUGINS_FOLDER
  if !has_profiles && !has_plugins then
    let lp := migrateLoop target_fs target_fs
    let fin := finishStep lp.1 (fsExists lp.1 PROFILES_FOLDER)
      (fsExists lp.1 PLUGINS_FOLDER)
    (fin.1, lp.2 ++ fin.2)
  else
    finishStep target_fs has_profiles has_plugins

/-! ## C2: migration is idempotent -/

theorem fsExists_append {r l : FSRoot} {n : String} :
    fsExists (r ++ l) n = (fsExists r n || fsExists l n) := by
  simp [fsExists, List.any_append]

theorem fsExists_fsMakedir_self (r : FSRoot) (n : String) :
    fsExists (fsMakedir r n) n = true := by
  by_cases h : fsExists r n = true
  · rw [fsMakedir, if_pos h]
    exact h
  · have h' : fsExists r n = false := by simpa using h
    rw [fsMakedir, if_neg h, fsExists_append, h']
    simp [fsExists]

theorem fsExists_fsMakedir_mono {r : FSRoot} {m : String} (n : String)
    (h : fsExists r m = true) : fsExists (fsMakedir r n) m = true := by
  by_cases he : fsExists r n = true
  · rw [fsMakedir, if_pos he]
    exact h
  · rw [fsMakedir, if_neg he, fsExists_append, h]
    rfl

theorem finishStep_exists (r : FSRoot) (hp hq : Bool)
    (hhp : hp = fsExists r PROFILES_FOLDER) (hhq : hq = fsExists r PLUGINS_FOLDER) :
    fsExists (finishStep r hp hq).1 PROFILES_FOLDER = true ∧
    fsExists (finishStep r hp hq).1 PLUGINS_FOLDER = true := by
  cases hp <;> cases hq <;>
    simp_all [finishStep, fsExists_fsMakedir_self,
      fsExists_fsMakedir_mono, fsExists_fsMakedir_mono PLUGINS_FOLDER (fsExists_fsMakedir_self r PROFILES_FOLDER)]

theorem finishStep_trivial (r : FSRoot) : finishStep r true true = (r, []) := by
  simp [finishStep]

theorem migrate_flat_layout_of_exists {r : FSRoot}
    (hp : fsExists r PROFILES_FOLDER = true) (hq : fsExists r PLUGINS_FOLDER = true) :
    migrate_flat_layout r = (r, []) := by
  simp [migrate_flat_layout, hp, hq, finishStep_trivial]

theorem migrate_flat_layout_eq (r : FSRoot) :
    migrate_flat_layout r =
      if !fsExists r PROFILES_FOLDER && !fsExists r PLUGINS_FOLDER then
        ((finishStep (migrateLoop r r).1 (fsExists (migrateLoop r r).1 PROFILES_FOLDER)
            (fsExists (migrateLoop r r).1 PLUGINS_FOLDER)).1,
         (migrateLoop r r).2 ++ (finishStep (migrateLoop r r).1
            (fsExists (migrateLoop r r).1 PROFILES_FOLDER)
            (fsExists (migrateLoop r r).1 PLUGINS_FOLDER)).2)
      else finishStep r (fsExists r PROFILES_FOLDER) (fsExists r PLUGINS_FOLDER) := rfl

theorem migrate_flat_layout_exists (r : FSRoot) :
    fsExists (migrate_flat_layout r).1 PROFILES_FOLDER = true ∧
    fsExists (migrate_flat_layout r).1 PLUGINS_FOLDER = true := by
  rw [migrate_flat_layout_eq]
  by_cases hbr : (!fsExists r PROFILES_FOLDER && !fsExists r PLUGINS_FOLDER) = true
  · rw [if_pos hbr]
    exact finishStep_exists _ _ _ rfl rfl
  · rw [if_neg hbr]
    exact finishStep_exists _ _ _ rfl rfl

/-- C2: a root already in structured form (both "profiles" and "plugins"
present as directories) is left untouched by `migrate_flat_layout`, with an
empty mutation log; consequently running the migration twice always yields
the on-disk state of the first run (the second run performs no mutation). -/
theorem migrate_flat_layout_idempotent :
    (∀ r a b, lookupEntry r PROFILES_FOLDER = some (Entry.dir a) →
      lookupEntry r PLUGINS_FOLDER = some (Entry.dir b) →
      migrate_flat_layout r = (r, []))
    ∧ ∀ r, migrate_flat_layout (migrate_flat_layout r).1
        = ((migrate_flat_layout r).1, []) := by
  constructor
  · intro r a b ha hb
    exact migrate_flat_layout_of_exists (fsExists_of_lookupEntry ha)
      (fsExists_of_lookupEntry hb)
  · intro r
    exact migrate_flat_layout_of_exists (migrate_flat_layout_exists r).1
      (migrate_flat_layout_exists r).2

/-- Witness for C2: a structured root with an empty profiles directory and a
one-file plugins directory is returned unchanged with zero mutations. -/
theorem migrate_flat_layout_idempotent_witness :
    migrate_flat_layout
        [("profiles", Entry.dir []), ("plugins", Entry.dir [("a.cfg", Entry.file "x")])]
      = ([("profiles", Entry.dir []), ("plugins", Entry.dir [("a.cfg", Entry.file "x")])], []) :=
  migrate_flat_layout_idempotent.1 _ [] [("a.cfg", Entry.file "x")] rfl rfl

/-! ## More lookup lemmas (for the flat-migration proof) -/

theorem lookupEntry_cons (p : String × Entry) (r : FSRoot) (n : String) :
    lookupEntry (p :: r) n = if p.1 == n then some p.2 else lookupEntry r n := by
  by_cases h : (p.1 == n) = true
  · simp [lookupEntry, List.find?, h]
  · have h' : (p.1 == n) = false := by simpa using h
    simp [lookupEntry, List.find?, h']

theorem lookupEntry_append_left {a : FSRoot} (b : FSRoot) {n : String} {e : Entry}
    (h : lookupEntry a n = some e) : lookupEntry (a ++ b) n = some e := by
  induction a with
  | nil => simp [lookupEntry] at h
  | cons p a ih =>
    rw [List.cons_append, lookupEntry_cons]
    rw [lookupEntry_cons] at h
    by_cases hb : (p.1 == n) = true
    · rw [if_pos hb] at h ⊢
      exact h
    · have hb' : (p.1 == n) = false := by simpa using hb
      rw [hb'] at h ⊢
      simp only [Bool.false_eq_true, if_false] at h ⊢
      exact ih h

theorem lookupEntry_append_right {a : FSRoot} (b : FSRoot) {n : String}
    (h : lookupEntry a n = none) : lookupEntry (a ++ b) n = lookupEntry b n := by
  induction a with
  | nil => rfl
  | cons p a ih =>
    rw [List.cons_append, lookupEntry_cons]
    rw [lookupEntry_cons] at h
    by_cases hb : (p.1 == n) = true
    · rw [if_pos hb] at h
      cases h
    · have hb' : (p.1 == n) = false := by simpa using hb
      rw [hb'] at h ⊢
      simp only [Bool.false_eq_true, if_false] at h ⊢
      exact ih h

theorem lookupEntry_eq_none_iff {r : FSRoot} {n : String} :
    lookupEntry r n = none ↔ fsExists r n = false := by
  constructor
  · intro h
    rw [fsExists_eq_false_iff]
    intro p hp hpn
    have hex : fsExists r n = true := by
      simp only [fsExists, List.any_eq_true]
      exact ⟨p, hp, by simp [hpn]⟩
    rcases lookupEntry_isSome_of_exists hex with ⟨e, he⟩
    rw [h] at he
    cases he
  · intro h
    cases hl : lookupEntry r n with
    | none => rfl
    | some e =>
      rw [fsExists_of_lookupEntry hl] at h
      cases h

theorem lookupEntry_of_mem_nodup {r : FSRoot} {n : String} {e : Entry}
    (hnd : (r.map Prod.fst).Nodup) (hm : (n, e) ∈ r) :
    lookupEntry r n = some e := by
  induction r with
  | nil => cases hm
  | cons p r ih =>
    rw [List.map_cons, List.nodup_cons] at hnd
    rcases List.mem_cons.mp hm with rfl | hm'
    · rw [lookupEntry_cons]
      simp
    · have hp : p.1 ≠ n := by
        intro hcon
        exact hnd.1 (hcon ▸ List.mem_map_of_mem Prod.fst hm')
      rw [lookupEntry_cons, if_neg (by simpa using hp)]
      exact ih hnd.2 hm'

theorem lookupEntry_map_rename (t : FSRoot) (d : String) (g : Entry → Entry) :
    lookupEntry (t.map (fun p => if p.1 == d then (p.1, g p.2) else p)) d
      = (lookupEntry t d).map g := by
  induction t with
  | nil => rfl
  | cons p t ih =>
    by_cases h : (p.1 == d) = true
    · simp only [List.map_cons, h, if_true, lookupEntry_cons, ih, Option.map_some']
    · have h' : (p.1 == d) = false := by simpa using h
      simp only [List.map_cons, h', Bool.false_eq_true, if_false, lookupEntry_cons, ih]

theorem lookupEntry_map_rename_other (t : FSRoot) (d m : String) (g : Entry → Entry)
    (hm : m ≠ d) :
    lookupEntry (t.map (fun p => if p.1 == d then (p.1, g p.2) else p)) m
      = lookupEntry t m := by
  induction t with
  | nil => rfl
  | cons p t ih =>
    by_cases h : (p.1 == d) = true
    · have hpd : p.1 = d := by simpa using h
      have hpm : (p.1 == m) = false := by simp [hpd, Ne.symm hm]
      simp only [List.map_cons, h, if_true, lookupEntry_cons, hpm, Bool.false_eq_true,
        if_false, ih]
    · have h' : (p.1 == d) = false := by simpa using h
      simp only [List.map_cons, h', Bool.false_eq_true, if_false, lookupEntry_cons, ih]

/-! ## C3: flat-layout migration -/

/-- Effect of one file step of the migration loop on the destination-directory
suffix of the state: `makedir` on first use, then the `move`'s insertion. -/
def sink (t : FSRoot) (d : String) (kv : String × Entry) : FSRoot :=
  let t₁ := if fsExists t d then t else t ++ [(d, Entry.dir [])]
  t₁.map (fun p => if p.1 == d then (p.1, appendChild p.2 kv) else p)

/-- Accumulated effect of the loop's file steps on the destination suffix. -/
def sinkAll (entries : List (String × Entry)) (t : FSRoot) : FSRoot :=
  match entries with
  | [] => t
  | p :: rest =>
    if p.2.isDir then sinkAll rest t else sinkAll rest (sink t (destOf p.1) p)

/-- Names of the loose files in a listing. -/
def fileNames (entries : List (String × Entry)) : List String :=
  entries.filterMap (fun p => if p.2.isDir then none else some p.1)

/-- The top-level entries the loop leaves in place: those whose name is not a
loose-file name of the snapshot. -/
def survivors (rest : List (String × Entry)) (base : FSRoot) : FSRoot :=
  base.filter (fun p => decide (p.1 ∉ fileNames rest))

/-- The loose files destined for directory `d`, in listing order. -/
def filesFor (d : String) (entries : List (String × Entry)) : List (String × Entry) :=
  entries.filter (fun p => !p.2.isDir && (destOf p.1 == d))

theorem destOf_cases (n : String) :
    destOf n = PROFILES_FOLDER ∨ destOf n = PLUGINS_FOLDER := by
  unfold destOf
  by_cases h : isJsonName n = true
  · exact Or.inl (by rw [if_pos h])
  · exact Or.inr (by rw [if_neg h])

theorem mem_fileNames {entries : List (String × Entry)} {m : String} :
    m ∈ fileNames entries ↔ ∃ q ∈ entries, q.2.isDir = false ∧ q.1 = m := by
  simp only [fileNames, List.mem_filterMap]
  constructor
  · rintro ⟨q, hq, hf⟩
    by_cases hd : q.2.isDir = true
    · simp [hd] at hf
    · have hd' : q.2.isDir = false := by simpa using hd
      rw [if_neg (by simp [hd'])] at hf
      exact ⟨q, hq, hd', by simpa using hf⟩
  · rintro ⟨q, hq, hd, rfl⟩
    exact ⟨q, hq, by simp [hd]⟩

theorem survivors_nil (base : FSRoot) : survivors [] base = base := by
  unfold survivors
  apply List.filter_eq_self.mpr
  intro p _
  simp [fileNames]

theorem survivors_cons_dir {q : String × Entry} {rest : List (String × Entry)}
    (base : FSRoot) (hd : q.2.isDir = true) :
    survivors (q :: rest) base = survivors rest base := by
  unfold survivors
  congr 1
  funext p
  congr 1
  simp [fileNames, hd]

theorem survivors_cons_file {q : String × Entry} {rest : List (String × Entry)}
    (base : FSRoot) (hd : q.2.isDir = false) :
    survivors (q :: rest) base = survivors rest (fsRemove base q.1) := by
  unfold survivors fsRemove
  rw [List.filter_filter]
  apply List.filter_congr
  intro p _
  have hfn : fileNames (q :: rest) = q.1 :: fileNames rest := by
    simp [fileNames, hd]
  rw [hfn]
  by_cases h1 : p.1 = q.1 <;> by_cases h2 : p.1 ∈ fileNames rest <;>
    simp [h1, h2]

theorem filesFor_cons_dir {q : String × Entry} {rest : List (String × Entry)}
    (d : String) (hd : q.2.isDir = true) :
    filesFor d (q :: rest) = filesFor d rest := by
  simp [filesFor, hd]

theorem filesFor_cons_file_eq {q : String × Entry} {rest : List (String × Entry)}
    {d : String} (hd : q.2.isDir = false) (hq : destOf q.1 = d) :
    filesFor d (q :: rest) = q :: filesFor d rest := by
  simp [filesFor, hd, hq]

theorem filesFor_cons_file_ne {q : String × Entry} {rest : List (String × Entry)}
    {d : String} (hd : q.2.isDir = false) (hq : destOf q.1 ≠ d) :
    filesFor d (q :: rest) = filesFor d rest := by
  simp [filesFor, hd, hq]

theorem fsRemove_append (a b : FSRoot) (n : String) :
    fsRemove (a ++ b) n = fsRemove a n ++ fsRemove b n := by
  simp [fsRemove, List.filter_append]

theorem sink_names {t : FSRoot} {d : String} {kv : String × Entry}
    (htail : ∀ p ∈ t, p.1 = PROFILES_FOLDER ∨ p.1 = PLUGINS_FOLDER)
    (hd : d = PROFILES_FOLDER ∨ d = PLUGINS_FOLDER) :
    ∀ p ∈ sink t d kv, p.1 = PROFILES_FOLDER ∨ p.1 = PLUGINS_FOLDER := by
  intro p hp
  simp only [sink] at hp
  rcases List.mem_map.mp hp with ⟨q, hq, hpq⟩
  have hq1 : q.1 = PROFILES_FOLDER ∨ q.1 = PLUGINS_FOLDER := by
    by_cases hft : fsExists t d = true
    · rw [if_pos hft] at hq
      exact htail q hq
    · rw [if_neg hft] at hq
      rcases List.mem_append.mp hq with hq' | hq'
      · exact htail q hq'
      · have : q = (d, Entry.dir []) := by simpa using hq'
        rw [this]
        exact hd
  have hp1 : p.1 = q.1 := by
    by_cases hb : (q.1 == d) = true
    · rw [if_pos hb] at hpq
      rw [← hpq]
    · have hb' : (q.1 == d) = false := by simpa using hb
      rw [hb'] at hpq
      simp only [Bool.false_eq_true, if_false] at hpq
      rw [← hpq]
  rw [hp1]
  exact hq1

theorem fsMove_decomp (base t₁ : FSRoot) (n d : String) (e : Entry)
    (hlook : lookupEntry base n = some e)
    (ht₁n : ∀ p ∈ t₁, p.1 ≠ n)
    (hbd : fsExists (fsRemove base n) d = false) :
    fsMove (base ++ t₁) n d =
      fsRemove base n ++
        t₁.map (fun p => if p.1 == d then (p.1, appendChild p.2 (n, e)) else p) := by
  unfold fsMove
  rw [lookupEntry_append_left t₁ hlook]
  have hsplit : fsRemove (base ++ t₁) n = fsRemove base n ++ t₁ := by
    rw [fsRemove_append]
    congr 1
    apply List.filter_eq_self.mpr
    intro p hp
    simpa using ht₁n p hp
  rw [hsplit]
  show List.map _ (fsRemove base n ++ t₁) = _
  rw [List.map_append, map_rename_of_not_exists hbd]

theorem migrateLoop_nil (r : FSRoot) : migrateLoop [] r = (r, []) := rfl

set_option maxHeartbeats 1600000 in
theorem migrateLoop_fst :
    ∀ (rest : List (String × Entry)) (base tail : FSRoot),
      List.Sublist rest base →
      (base.map Prod.fst).Nodup →
      (∀ p ∈ base, p.1 ≠ PROFILES_FOLDER ∧ p.1 ≠ PLUGINS_FOLDER) →
      (∀ p ∈ tail, p.1 = PROFILES_FOLDER ∨ p.1 = PLUGINS_FOLDER) →
      (migrateLoop rest (base ++ tail)).1 = survivors rest base ++ sinkAll rest tail := by
  intro rest
  induction rest with
  | nil =>
    intro base tail _ _ _ _
    rw [migrateLoop_nil, survivors_nil]
    rfl
  | cons q rest ih =>
    intro base tail hsub hnd hbase htail
    obtain ⟨n, e⟩ := q
    have hsub' : List.Sublist rest base :=
      (List.sublist_cons_self (n, e) rest).trans hsub
    by_cases hd : e.isDir = true
    · have hstep : migrateLoop ((n, e) :: rest) (base ++ tail)
          = migrateLoop rest (base ++ tail) := by
        simp [migrateLoop, hd]
      rw [hstep, ih base tail hsub' hnd hbase htail, survivors_cons_dir base hd]
      simp [sinkAll, hd]
    · have hd' : e.isDir = false := by simpa using hd
      have hmem : (n, e) ∈ base := hsub.subset (List.mem_cons_self _ _)
      have hnPQ := hbase (n, e) hmem
      have hdest := destOf_cases n
      have hbdest : fsExists base (destOf n) = false := by
        rw [fsExists_eq_false_iff]
        intro p hp
        rcases hdest with h | h
        · rw [h]
          exact (hbase p hp).1
        · rw [h]
          exact (hbase p hp).2
      have hcond : fsExists (base ++ tail) (destOf n) = fsExists tail (destOf n) := by
        rw [fsExists_append, hbdest]
        rfl
      have hlookn : lookupEntry base n = some e := lookupEntry_of_mem_nodup hnd hmem
      have hnotrest : ∀ p ∈ rest, p.1 ≠ n := by
        have h2 : (n :: rest.map Prod.fst).Nodup := by
          have h1 : (((n, e) :: rest).map Prod.fst).Nodup :=
            hnd.sublist (hsub.map Prod.fst)
          simpa using h1
        intro p hp hpn
        apply (List.nodup_cons.mp h2).1
        rw [← hpn]
        exact List.mem_map_of_mem Prod.fst hp
      have hsubr : List.Sublist rest (fsRemove base n) := by
        have hfix : rest.filter (fun p => p.1 != n) = rest := by
          apply List.filter_eq_self.mpr
          intro p hp
          simpa using hnotrest p hp
        rw [fsRemove, ← hfix]
        exact hsub'.filter _
      have hndr : ((fsRemove base n).map Prod.fst).Nodup :=
        hnd.sublist ((List.filter_sublist base).map Prod.fst)
      have hbaser : ∀ p ∈ fsRemove base n,
          p.1 ≠ PROFILES_FOLDER ∧ p.1 ≠ PLUGINS_FOLDER := by
        intro p hp
        exact hbase p (List.mem_of_mem_filter hp)
      have hbdr : fsExists (fsRemove base n) (destOf n) = false := by
        rw [fsExists_eq_false_iff]
        intro p hp
        exact fsExists_eq_false_iff.mp hbdest p (List.mem_of_mem_filter hp)
      by_cases hc : fsExists tail (destOf n) = true
      · have htn : ∀ p ∈ tail, p.1 ≠ n := by
          intro p hp hpn
          rcases htail p hp with h | h
          · exact hnPQ.1 (hpn ▸ h)
          · exact hnPQ.2 (hpn ▸ h)
        have hmv : fsMove (base ++ tail) n (destOf n) =
            fsRemove base n ++ tail.map
              (fun p => if p.1 == destOf n then (p.1, appendChild p.2 (n, e)) else p) :=
          fsMove_decomp base tail n (destOf n) e hlookn htn hbdr
        have hsink : sink tail (destOf n) (n, e) =
            tail.map
              (fun p => if p.1 == destOf n then (p.1, appendChild p.2 (n, e)) else p) := by
          simp [sink, hc]
        have hstep : (migrateLoop ((n, e) :: rest) (base ++ tail)).1 =
            (migrateLoop rest (fsMove (base ++ tail) n (destOf n))).1 := by
          simp [migrateLoop, hd', hcond, hc]
        rw [hstep, hmv, ← hsink]
        rw [ih (fsRemove base n) (sink tail (destOf n) (n, e)) hsubr hndr hbaser
          (sink_names htail hdest)]
        rw [survivors_cons_file base hd']
        simp [sinkAll, hd']
      · have hc' : fsExists tail (destOf n) = false := by simpa using hc
        have htail₁ : ∀ p ∈ tail ++ [(destOf n, Entry.dir [])],
            p.1 = PROFILES_FOLDER ∨ p.1 = PLUGINS_FOLDER := by
          intro p hp
          rcases List.mem_append.mp hp with h | h
          · exact htail p h
          · rw [List.mem_singleton] at h
            subst h
            simpa using hdest
        have htn₁ : ∀ p ∈ tail ++ [(destOf n, Entry.dir [])], p.1 ≠ n := by
          intro p hp hpn
          rcases htail₁ p hp with h | h
          · exact hnPQ.1 (hpn ▸ h)
          · exact hnPQ.2 (hpn ▸ h)
        have hmv : fsMove ((base ++ tail) ++ [(destOf n, Entry.dir [])]) n (destOf n) =
            fsRemove base n ++ (tail ++ [(destOf n, Entry.dir [])]).map
              (fun p => if p.1 == destOf n then (p.1, appendChild p.2 (n, e)) else p) := by
          rw [List.append_assoc]
          exact fsMove_decomp base (tail ++ [(destOf n, Entry.dir [])]) n (destOf n) e
            hlookn htn₁ hbdr
        have hsink : sink tail (destOf n) (n, e) =
            (tail ++ [(destOf n, Entry.dir [])]).map
              (fun p => if p.1 == destOf n then (p.1, appendChild p.2 (n, e)) else p) := by
          simp [sink, hc']
        have hstep : (migrateLoop ((n, e) :: rest) (base ++ tail)).1 =
            (migrateLoop rest
              (fsMove ((base ++ tail) ++ [(destOf n, Entry.dir [])]) n (destOf n))).1 := by
          simp [migrateLoop, hd', hcond, hc']
        rw [hstep, hmv, ← hsink]
        rw [ih (fsRemove base n) (sink tail (destOf n) (n, e)) hsubr hndr hbaser
          (sink_names htail hdest)]
        rw [survivors_cons_file base hd']
        simp [sinkAll, hd']

theorem mem_of_lookupEntry {r : FSRoot} {n : String} {e : Entry}
    (h : lookupEntry r n = some e) : (n, e) ∈ r := by
  rcases Option.map_eq_some'.mp h with ⟨p, hp, hpe⟩
  have hmem := List.mem_of_find?_eq_some hp
  have hpn := List.find?_some hp
  obtain ⟨p1, p2⟩ := p
  have h1 : p1 = n := by simpa using hpn
  have h2 : p2 = e := hpe
  rw [← h1, ← h2]
  exact hmem

theorem sink_dirs {t : FSRoot} {d : String} {kv : String × Entry}
    (ht : ∀ p ∈ t, ∃ es, p.2 = Entry.dir es) :
    ∀ p ∈ sink t d kv, ∃ es, p.2 = Entry.dir es := by
  intro p hp
  simp only [sink] at hp
  rcases List.mem_map.mp hp with ⟨q, hq, hpq⟩
  have hq2 : ∃ es, q.2 = Entry.dir es := by
    by_cases hft : fsExists t d = true
    · rw [if_pos hft] at hq
      exact ht q hq
    · rw [if_neg hft] at hq
      rcases List.mem_append.mp hq with h | h
      · exact ht q h
      · rw [List.mem_singleton] at h
        subst h
        exact ⟨[], rfl⟩
  rcases hq2 with ⟨es, hes⟩
  by_cases hb : (q.1 == d) = true
  · rw [if_pos hb] at hpq
    refine ⟨es ++ [kv], ?_⟩
    rw [← hpq]
    simp [appendChild, hes]
  · have hb' : (q.1 == d) = false := by simpa using hb
    rw [hb'] at hpq
    simp only [Bool.false_eq_true, if_false] at hpq
    rw [← hpq]
    exact ⟨es, hes⟩

theorem sinkAll_dirs :
    ∀ (rest : List (String × Entry)) (t : FSRoot),
      (∀ p ∈ t, ∃ es, p.2 = Entry.dir es) →
      ∀ p ∈ sinkAll rest t, ∃ es, p.2 = Entry.dir es := by
  intro rest
  induction rest with
  | nil =>
    intro t ht
    exact ht
  | cons q rest ih =>
    intro t ht
    by_cases hd : q.2.isDir = true
    · rw [show sinkAll (q :: rest) t = sinkAll rest t from by simp [sinkAll, hd]]
      exact ih t ht
    · have hd' : q.2.isDir = false := by simpa using hd
      rw [show sinkAll (q :: rest) t = sinkAll rest (sink t (destOf q.1) q) from by
        simp [sinkAll, hd']]
      exact ih _ (sink_dirs ht)

theorem lookupEntry_fsMakedir_some {r : FSRoot} {n m : String} {e : Entry}
    (h : lookupEntry r m = some e) : lookupEntry (fsMakedir r n) m = some e := by
  by_cases hf : fsExists r n = true
  · rw [fsMakedir, if_pos hf]
    exact h
  · rw [fsMakedir, if_neg hf]
    exact lookupEntry_append_left _ h

theorem lookupEntry_fsMakedir_self {r : FSRoot} {n : String}
    (h : lookupEntry r n = none) :
    lookupEntry (fsMakedir r n) n = some (Entry.dir []) := by
  have hf : fsExists r n = false := lookupEntry_eq_none_iff.mp h
  rw [fsMakedir, if_neg (by simp [hf])]
  exact lookupEntry_append_singleton _ _ _ hf

theorem lookupEntry_fsMakedir_other {r : FSRoot} {n m : String} (hm : m ≠ n) :
    lookupEntry (fsMakedir r n) m = lookupEntry r m := by
  by_cases hf : fsExists r n = true
  · rw [fsMakedir, if_pos hf]
  · rw [fsMakedir, if_neg hf]
    cases hl : lookupEntry r m with
    | some e => exact lookupEntry_append_left _ hl
    | none =>
      rw [lookupEntry_append_right _ hl, lookupEntry_cons,
        if_neg (by simp [Ne.symm hm])]
      rfl

theorem mem_fsMakedir {r : FSRoot} {n : String} {p : String × Entry}
    (hp : p ∈ fsMakedir r n) : p ∈ r ∨ p = (n, Entry.dir []) := by
  by_cases hf : fsExists r n = true
  · rw [fsMakedir, if_pos hf] at hp
    exact Or.inl hp
  · rw [fsMakedir, if_neg hf] at hp
    rcases List.mem_append.mp hp with h | h
    · exact Or.inl h
    · exact Or.inr (by simpa using h)

theorem sinkAll_lookup_some (d : String) :
    ∀ (rest : List (String × Entry)) (t : FSRoot) (es : List (String × Entry)),
      (∀ p ∈ t, ∃ es', p.2 = Entry.dir es') →
      lookupEntry t d = some (Entry.dir es) →
      lookupEntry (sinkAll rest t) d = some (Entry.dir (es ++ filesFor d rest)) := by
  intro rest
  induction rest with
  | nil =>
    intro t es _ hl
    simpa [sinkAll, filesFor] using hl
  | cons q rest ih =>
    intro t es ht hl
    by_cases hdq : q.2.isDir = true
    · rw [show sinkAll (q :: rest) t = sinkAll rest t from by simp [sinkAll, hdq],
        filesFor_cons_dir d hdq]
      exact ih t es ht hl
    · have hd' : q.2.isDir = false := by simpa using hdq
      rw [show sinkAll (q :: rest) t = sinkAll rest (sink t (destOf q.1) q) from by
        simp [sinkAll, hd']]
      by_cases heq : destOf q.1 = d
      · have hex : fsExists t d = true := fsExists_of_lookupEntry hl
        have hsl : lookupEntry (sink t (destOf q.1) q) d
            = some (Entry.dir (es ++ [q])) := by
          rw [heq]
          simp only [sink, hex, if_true]
          rw [lookupEntry_map_rename t d (fun e2 => appendChild e2 q), hl]
          simp [appendChild]
        have hdirs : ∀ p ∈ sink t (destOf q.1) q, ∃ es', p.2 = Entry.dir es' :=
          sink_dirs ht
        rw [ih _ _ hdirs hsl, filesFor_cons_file_eq hd' heq]
        simp
      · have hne : d ≠ destOf q.1 := fun hcon => heq hcon.symm
        have hsl : lookupEntry (sink t (destOf q.1) q) d = some (Entry.dir es) := by
          simp only [sink]
          by_cases hft : fsExists t (destOf q.1) = true
          · rw [if_pos hft,
              lookupEntry_map_rename_other t (destOf q.1) d (fun e2 => appendChild e2 q) hne]
            exact hl
          · rw [if_neg hft,
              lookupEntry_map_rename_other (t ++ [(destOf q.1, Entry.dir [])])
                (destOf q.1) d (fun e2 => appendChild e2 q) hne]
            exact lookupEntry_append_left _ hl
        rw [ih _ _ (sink_dirs ht) hsl, filesFor_cons_file_ne hd' (fun hcon => heq hcon)]

theorem sinkAll_lookup_none (d : String) :
    ∀ (rest : List (String × Entry)) (t : FSRoot),
      (∀ p ∈ t, ∃ es', p.2 = Entry.dir es') →
      lookupEntry t d = none →
      lookupEntry (sinkAll rest t) d =
        (if (filesFor d rest).isEmpty then none
         else some (Entry.dir (filesFor d rest))) := by
  intro rest
  induction rest with
  | nil =>
    intro t _ hl
    simpa [sinkAll, filesFor] using hl
  | cons q rest ih =>
    intro t ht hl
    by_cases hdq : q.2.isDir = true
    · rw [show sinkAll (q :: rest) t = sinkAll rest t from by simp [sinkAll, hdq],
        filesFor_cons_dir d hdq]
      exact ih t ht hl
    · have hd' : q.2.isDir = false := by simpa using hdq
      rw [show sinkAll (q :: rest) t = sinkAll rest (sink t (destOf q.1) q) from by
        simp [sinkAll, hd']]
      by_cases heq : destOf q.1 = d
      · have hnott : fsExists t d = false := lookupEntry_eq_none_iff.mp hl
        have hsl : lookupEntry (sink t (destOf q.1) q) d = some (Entry.dir [q]) := by
          rw [heq]
          simp only [sink, hnott, Bool.false_eq_true, if_false]
          rw [lookupEntry_map_rename (t ++ [(d, Entry.dir [])]) d
            (fun e2 => appendChild e2 q)]
          rw [lookupEntry_append_singleton t d _ hnott]
          simp [appendChild]
        rw [sinkAll_lookup_some d rest _ [q] (sink_dirs ht) hsl,
          filesFor_cons_file_eq hd' heq]
        rw [if_neg (by simp)]
        rfl
      · have hne : d ≠ destOf q.1 := fun hcon => heq hcon.symm
        have hsl : lookupEntry (sink t (destOf q.1) q) d = none := by
          simp only [sink]
          by_cases hft : fsExists t (destOf q.1) = true
          · rw [if_pos hft,
              lookupEntry_map_rename_other t (destOf q.1) d (fun e2 => appendChild e2 q) hne]
            exact hl
          · rw [if_neg hft,
              lookupEntry_map_rename_other (t ++ [(destOf q.1, Entry.dir [])])
                (destOf q.1) d (fun e2 => appendChild e2 q) hne]
            rw [lookupEntry_append_right _ hl, lookupEntry_cons,
              if_neg (by simp [Ne.symm hne])]
            rfl
        rw [ih _ (sink_dirs ht) hsl, filesFor_cons_file_ne hd' (fun hcon => heq hcon)]

theorem survivors_self {r : FSRoot} (hnd : (r.map Prod.fst).Nodup) :
    survivors r r = r.filter (fun p => p.2.isDir) := by
  unfold survivors
  apply List.filter_congr
  intro p hp
  by_cases hdp : p.2.isDir = true
  · have hnotin : p.1 ∉ fileNames r := by
      intro hmem
      rcases mem_fileNames.mp hmem with ⟨q, hq, hqf, hqn⟩
      have hqp : q = p := List.inj_on_of_nodup_map hnd hq hp hqn
      rw [hqp, hdp] at hqf
      cases hqf
    simp [hdp, hnotin]
  · have hdp' : p.2.isDir = false := by simpa using hdp
    have hin : p.1 ∈ fileNames r := mem_fileNames.mpr ⟨p, hp, hdp', rfl⟩
    simp [hdp', hin]

theorem finishStep_lookup_other (L : FSRoot) (b c : Bool) {n : String}
    (hnP : n ≠ PROFILES_FOLDER) (hnQ : n ≠ PLUGINS_FOLDER) :
    lookupEntry (finishStep L b c).1 n = lookupEntry L n := by
  cases b <;> cases c <;>
    simp [finishStep, lookupEntry_fsMakedir_other hnP, lookupEntry_fsMakedir_other hnQ]

theorem finishStep_mem {L : FSRoot} {b c : Bool} {p : String × Entry}
    (hp : p ∈ (finishStep L b c).1) :
    p ∈ L ∨ p = (PROFILES_FOLDER, Entry.dir []) ∨ p = (PLUGINS_FOLDER, Entry.dir []) := by
  have hmain : ∀ r : FSRoot, p ∈ fsMakedir r PLUGINS_FOLDER →
      p ∈ r ∨ p = (PLUGINS_FOLDER, Entry.dir []) := fun r h => mem_fsMakedir h
  cases b <;> cases c <;> simp only [finishStep, Bool.not_false, Bool.not_true,
    if_true, if_false, Bool.false_eq_true, Bool.true_eq_false] at hp
  · rcases mem_fsMakedir hp with h | h
    · rcases mem_fsMakedir h with h' | h'
      · exact Or.inl h'
      · exact Or.inr (Or.inl h')
    · exact Or.inr (Or.inr h)
  · rcases mem_fsMakedir hp with h | h
    · exact Or.inl h
    · exact Or.inr (Or.inl h)
  · rcases mem_fsMakedir hp with h | h
    · exact Or.inl h
    · exact Or.inr (Or.inr h)
  · exact Or.inl hp

theorem finishStep_lookup_P (L : FSRoot) (c : Bool) :
    (∀ e, lookupEntry L PROFILES_FOLDER = some e →
      lookupEntry (finishStep L (fsExists L PROFILES_FOLDER) c).1 PROFILES_FOLDER
        = some e)
    ∧ (lookupEntry L PROFILES_FOLDER = none →
      lookupEntry (finishStep L (fsExists L PROFILES_FOLDER) c).1 PROFILES_FOLDER
        = some (Entry.dir [])) := by
  have hPQ : PROFILES_FOLDER ≠ PLUGINS_FOLDER := by decide
  constructor
  · intro e he
    rw [fsExists_of_lookupEntry he]
    cases c
    · simp only [finishStep, Bool.not_true, Bool.not_false, Bool.false_eq_true,
        if_false, if_true]
      rw [lookupEntry_fsMakedir_other hPQ]
      exact he
    · simpa [finishStep] using he
  · intro he
    rw [lookupEntry_eq_none_iff.mp he]
    cases c
    · simp only [finishStep, Bool.not_false, Bool.false_eq_true, if_false, if_true]
      rw [lookupEntry_fsMakedir_other hPQ]
      exact lookupEntry_fsMakedir_self he
    · simp only [finishStep, Bool.not_false, Bool.not_true, Bool.false_eq_true,
        if_false, if_true]
      exact lookupEntry_fsMakedir_self he

theorem finishStep_lookup_Q (L : FSRoot) (b : Bool) :
    (∀ e, lookupEntry L PLUGINS_FOLDER = some e →
      lookupEntry (finishStep L b (fsExists L PLUGINS_FOLDER)).1 PLUGINS_FOLDER
        = some e)
    ∧ (lookupEntry L PLUGINS_FOLDER = none →
      lookupEntry (finishStep L b (fsExists L PLUGINS_FOLDER)).1 PLUGINS_FOLDER
        = some (Entry.dir [])) := by
  have hQP : PLUGINS_FOLDER ≠ PROFILES_FOLDER := by decide
  constructor
  · intro e he
    rw [fsExists_of_lookupEntry he]
    cases b
    · simp only [finishStep, Bool.not_true, Bool.not_false, Bool.false_eq_true,
        if_false, if_true]
      rw [lookupEntry_fsMakedir_other hQP]
      exact he
    · simpa [finishStep] using he
  · intro he
    rw [lookupEntry_eq_none_iff.mp he]
    cases b
    · simp only [finishStep, Bool.not_false, Bool.false_eq_true, if_false, if_true]
      have he' : lookupEntry (fsMakedir L PROFILES_FOLDER) PLUGINS_FOLDER = none := by
        rw [lookupEntry_fsMakedir_other hQP]
        exact he
      exact lookupEntry_fsMakedir_self he'
    · simp only [finishStep, Bool.not_true, Bool.not_false, Bool.false_eq_true,
        if_false, if_true]
      exact lookupEntry_fsMakedir_self he

/-- C3: on a root with neither "profiles" nor "plugins" (and distinct entry
names), migration moves every top-level loose file whose lowercased name ends
in ".json" into "profiles" and every other loose file into "plugins" (in
listing order), leaves existing subdirectories untouched (no recursion into
them), and afterwards both directories exist and no loose file remains at the
top level. -/
theorem migrate_flat_layout_flat (r : FSRoot)
    (hnd : (r.map Prod.fst).Nodup)
    (hp : fsExists r PROFILES_FOLDER = false)
    (hq : fsExists r PLUGINS_FOLDER = false) :
    lookupEntry (migrate_flat_layout r).1 PROFILES_FOLDER
        = some (Entry.dir (r.filter (fun p => !p.2.isDir && isJsonName p.1)))
    ∧ lookupEntry (migrate_flat_layout r).1 PLUGINS_FOLDER
        = some (Entry.dir (r.filter (fun p => !p.2.isDir && !isJsonName p.1)))
    ∧ (∀ n d, lookupEntry r n = some (Entry.dir d) →
        lookupEntry (migrate_flat_layout r).1 n = some (Entry.dir d))
    ∧ (∀ p ∈ (migrate_flat_layout r).1, p.2.isDir = true) := by
  have hPPb : (PROFILES_FOLDER == PROFILES_FOLDER) = true := by decide
  have hQQb : (PLUGINS_FOLDER == PLUGINS_FOLDER) = true := by decide
  have hQPb : (PLUGINS_FOLDER == PROFILES_FOLDER) = false := by decide
  have hPQb : (PROFILES_FOLDER == PLUGINS_FOLDER) = false := by decide
  have hPP : filesFor PROFILES_FOLDER r
      = r.filter (fun p => !p.2.isDir && isJsonName p.1) := by
    unfold filesFor
    apply List.filter_congr
    intro p _
    by_cases hj : isJsonName p.1 = true
    · simp [destOf, hj, hPPb]
    · have hj' : isJsonName p.1 = false := by simpa using hj
      simp [destOf, hj', hQPb]
  have hQQ : filesFor PLUGINS_FOLDER r
      = r.filter (fun p => !p.2.isDir && !isJsonName p.1) := by
    unfold filesFor
    apply List.filter_congr
    intro p _
    by_cases hj : isJsonName p.1 = true
    · simp [destOf, hj, hPQb]
    · have hj' : isJsonName p.1 = false := by simpa using hj
      simp [destOf, hj', hQQb]
  have hbase : ∀ p ∈ r, p.1 ≠ PROFILES_FOLDER ∧ p.1 ≠ PLUGINS_FOLDER :=
    fun p hpm => ⟨fsExists_eq_false_iff.mp hp p hpm, fsExists_eq_false_iff.mp hq p hpm⟩
  have hL : (migrateLoop r r).1 = r.filter (fun p => p.2.isDir) ++ sinkAll r [] := by
    have h0 := migrateLoop_fst r r [] (List.Sublist.refl r) hnd hbase
      (by intro p hpm; cases hpm)
    rw [List.append_nil] at h0
    rw [h0, survivors_self hnd]
  have hfilterP : lookupEntry (r.filter (fun p => p.2.isDir)) PROFILES_FOLDER = none := by
    rw [lookupEntry_eq_none_iff, fsExists_eq_false_iff]
    intro p hpm
    exact (hbase p (List.mem_of_mem_filter hpm)).1
  have hfilterQ : lookupEntry (r.filter (fun p => p.2.isDir)) PLUGINS_FOLDER = none := by
    rw [lookupEntry_eq_none_iff, fsExists_eq_false_iff]
    intro p hpm
    exact (hbase p (List.mem_of_mem_filter hpm)).2
  have hLP : lookupEntry (migrateLoop r r).1 PROFILES_FOLDER =
      (if (filesFor PROFILES_FOLDER r).isEmpty then none
       else some (Entry.dir (filesFor PROFILES_FOLDER r))) := by
    rw [hL, lookupEntry_append_right _ hfilterP]
    exact sinkAll_lookup_none PROFILES_FOLDER r [] (by intro p hpm; cases hpm) rfl
  have hLQ : lookupEntry (migrateLoop r r).1 PLUGINS_FOLDER =
      (if (filesFor PLUGINS_FOLDER r).isEmpty then none
       else some (Entry.dir (filesFor PLUGINS_FOLDER r))) := by
    rw [hL, lookupEntry_append_right _ hfilterQ]
    exact sinkAll_lookup_none PLUGINS_FOLDER r [] (by intro p hpm; cases hpm) rfl
  have hcond : (!fsExists r PROFILES_FOLDER && !fsExists r PLUGINS_FOLDER) = true := by
    rw [hp, hq]
    rfl
  have hM : (migrate_flat_layout r).1 =
      (finishStep (migrateLoop r r).1 (fsExists (migrateLoop r r).1 PROFILES_FOLDER)
        (fsExists (migrateLoop r r).1 PLUGINS_FOLDER)).1 := by
    rw [migrate_flat_layout_eq, if_pos hcond]
  refine ⟨?_, ?_, ?_, ?_⟩
  · rw [hM]
    by_cases hFP : (filesFor PROFILES_FOLDER r).isEmpty = true
    · have hnoneP : lookupEntry (migrateLoop r r).1 PROFILES_FOLDER = none := by
        rw [hLP, if_pos hFP]
      rw [(finishStep_lookup_P (migrateLoop r r).1 _).2 hnoneP, ← hPP,
        List.isEmpty_iff.mp hFP]
    · have hsomeP : lookupEntry (migrateLoop r r).1 PROFILES_FOLDER
          = some (Entry.dir (filesFor PROFILES_FOLDER r)) := by
        rw [hLP, if_neg hFP]
      rw [(finishStep_lookup_P (migrateLoop r r).1 _).1 _ hsomeP, ← hPP]
  · rw [hM]
    by_cases hFQ : (filesFor PLUGINS_FOLDER r).isEmpty = true
    · have hnoneQ : lookupEntry (migrateLoop r r).1 PLUGINS_FOLDER = none := by
        rw [hLQ, if_pos hFQ]
      rw [(finishStep_lookup_Q (migrateLoop r r).1 _).2 hnoneQ, ← hQQ,
        List.isEmpty_iff.mp hFQ]
    · have hsomeQ : lookupEntry (migrateLoop r r).1 PLUGINS_FOLDER
          = some (Entry.dir (filesFor PLUGINS_FOLDER r)) := by
        rw [hLQ, if_neg hFQ]
      rw [(finishStep_lookup_Q (migrateLoop r r).1 _).1 _ hsomeQ, ← hQQ]
  · intro n dd hlook
    have hnP : n ≠ PROFILES_FOLDER := by
      intro hcon
      rw [hcon] at hlook
      rw [fsExists_of_lookupEntry hlook] at hp
      cases hp
    have hnQ : n ≠ PLUGINS_FOLDER := by
      intro hcon
      rw [hcon] at hlook
      rw [fsExists_of_lookupEntry hlook] at hq
      cases hq
    rw [hM, finishStep_lookup_other _ _ _ hnP hnQ, hL]
    have hmem : (n, Entry.dir dd) ∈ r := mem_of_lookupEntry hlook
    have hmemf : (n, Entry.dir dd) ∈ r.filter (fun p => p.2.isDir) :=
      List.mem_filter.mpr ⟨hmem, rfl⟩
    have hndf : ((r.filter (fun p => p.2.isDir)).map Prod.fst).Nodup :=
      hnd.sublist ((List.filter_sublist r).map Prod.fst)
    exact lookupEntry_append_left _ (lookupEntry_of_mem_nodup hndf hmemf)
  · intro p hpm
    rw [hM] at hpm
    rcases finishStep_mem hpm with h | h | h
    · rw [hL] at h
      rcases List.mem_append.mp h with h' | h'
      · exact (List.mem_filter.mp h').2
      · rcases sinkAll_dirs r [] (by intro x hx; cases hx) p h' with ⟨es, hes⟩
        rw [hes]
        rfl
    · rw [h]
      rfl
    · rw [h]
      rfl

/-- Witness for C3 at the spec's migration scenario: a flat root with
`config1.json` and `pedalA.cfg` migrates to `profiles/config1.json` and
`plugins/pedalA.cfg`, existing directories stay, and no loose file remains. -/
theorem migrate_flat_layout_flat_witness :
    lookupEntry (migrate_flat_layout
        [("config1.json", Entry.file "c"), ("pedalA.cfg", Entry.file "p")]).1
      PROFILES_FOLDER = some (Entry.dir [("config1.json", Entry.file "c")]) ∧
    lookupEntry (migrate_flat_layout
        [("config1.json", Entry.file "c"), ("pedalA.cfg", Entry.file "p")]).1
      PLUGINS_FOLDER = some (Entry.dir [("pedalA.cfg", Entry.file "p")]) := by
  have h := migrate_flat_layout_flat
    [("config1.json", Entry.file "c"), ("pedalA.cfg", Entry.file "p")]
    (by decide) rfl rfl
  exact ⟨h.1.trans (by rfl), h.2.1.trans (by rfl)⟩

/-! ## Plugin/Parameter model (plugin_manager.py) -/

/-- A `Parameter` object's fields (plugin_manager.py lines 5-19).  `increment`
is `none` when the `match` in `__init__` has no arm for the mode, so the
attribute is never set.  Numeric values are modelled as rationals. -/
structure Parameter where
  type : String
  name : String
  symbol : String
  mode : String
  value : ℚ
  minimum : ℚ
  max : ℚ
  increment : Option ℚ

/-- The increment assigned by the `match` statement in `Parameter.__init__`
(lines 15-19). -/
def incrementFor (mode : String) (min max : ℚ) : Option ℚ :=
  if mode = "dial" then some ((max - min) / 100)
  else if mode = "button" ∨ mode = "selector" then some 1
  else none

/-- The constructor call `Parameter(type, name, symbol, mode, value, min, max)`
(lines 6-19): stores the fields and derives the increment from the mode. -/
def mkParameter (type name symbol mode : String) (value min max : ℚ) : Parameter :=
  ⟨type, name, symbol, mode, value, min, max, incrementFor mode min max⟩

/-- `Parameter.setValue` (lines 21-22): unconditional overwrite, no clamping,
increment untouched. -/
def Parameter.setValue (p : Parameter) (value : ℚ) : Parameter :=
  { p with value := value }

/-- A `Plugin` object's fields (lines 25-47). -/
structure Plugin where
  name : String
  uri : String
  channels : String
  inputs : List String
  outputs : List String
  bypass : ℚ
  parameters : List Parameter
  category : Option String
  description : Option String

/-- `PluginManager` (lines 76-78): an ordered collection of plugins. -/
structure PluginManager where
  plugins : List Plugin

def PluginManager.size (m : PluginManager) : Nat := m.plugins.length

def PluginManager.addPlugin (m : PluginManager) (p : Plugin) : PluginManager :=
  ⟨m.plugins ++ [p]⟩

/-- Normalization of a Python list index: a negative index addresses from the
end; `none` when the index is out of range either way (an `IndexError`). -/
def pyNorm (len : Nat) (i : Int) : Option Nat :=
  let j : Int := if i < 0 then (len : Int) + i else i
  if 0 ≤ j ∧ j < (len : Int) then some j.toNat else none

/-- Python list subscription `l[i]`; `none` is an `IndexError`. -/
def pyIndex {α : Type} (l : List α) (i : Int) : Option α :=
  match pyNorm l.length i with
  | some j => l[j]?
  | none => none

def listModify {α : Type} : List α → Nat → (α → α) → List α
  | [], _, _ => []
  | x :: xs, 0, f => f x :: xs
  | x :: xs, j + 1, f => x :: listModify xs j f

/-- In-place mutation of the object at `l[i]`, Python index semantics (only
reached at call sites that already subscripted `l[i]` successfully). -/
def pyModify {α : Type} (l : List α) (i : Int) (f : α → α) : List α :=
  match pyNorm l.length i with
  | some j => listModify l j f
  | none => l

/-- `PluginManager.getPlugin` (lines 103-108): `none` models the caught
`IndexError` path, which prints a diagnostic and returns the `[]` sentinel
instead of a plugin. -/
def PluginManager.getPlugin (m : PluginManager) (x : Int) : Option Plugin :=
  pyIndex m.plugins x

/-- `PluginManager.getParameterNames` (lines 86-95): the blanket
`except Exception` handler returns `[]` on any failure. -/
def PluginManager.getParameterNames (m : PluginManager) (x : Int) : List String :=
  match pyIndex m.plugins x with
  | some p => p.parameters.map (fun q => q.name)
  | none => []

/-- `PluginManager.paramSize` (lines 100-101): no handler at all — `none`
models an uncaught `IndexError` escaping to the caller. -/
def PluginManager.paramSize (m : PluginManager) (x : Int) : Option Nat :=
  match pyIndex m.plugins x with
  | some p => some p.parameters.length
  | none => none

/-- `PluginManager.changeParameter` (lines 113-127): either `IndexError`
handler prints and returns `None` leaving the collection unchanged; a valid
index pair mutates the addressed parameter's value in place. -/
def PluginManager.changeParameter (m : PluginManager)
    (pluginIndex parameterIndex : Int) (value : ℚ) : PluginManager :=
  match pyIndex m.plugins pluginIndex with
  | none => m
  | some plugin =>
    match pyIndex plugin.parameters parameterIndex with
    | none => m
    | some _ =>
      ⟨pyModify m.plugins pluginIndex (fun p =>
        { p with parameters :=
            pyModify p.parameters parameterIndex (fun q => q.setValue value) })⟩

/-! ## C8: increment derivation -/

/-- C8: a constructed Parameter's increment is `(max − min)/100` for mode
"dial", `1` for "button" or "selector", and undefined (never assigned) for
any other mode; in particular dial with min 0, max 10 gives 0.1 and button
gives 1. -/
theorem parameter_increment (type name symbol mode : String) (value min max : ℚ) :
    (mkParameter type name symbol mode value min max).increment =
      (if mode = "dial" then some ((max - min) / 100)
       else if mode = "button" ∨ mode = "selector" then some 1
       else none)
    ∧ (mkParameter "lv2" "p" "s" "dial" 1 0 10).increment = some (1 / 10)
    ∧ (mkParameter "lv2" "p" "s" "button" 1 0 10).increment = some 1 := by
  refine ⟨rfl, ?_, ?_⟩
  · show incrementFor "dial" 0 10 = some (1 / 10)
    rw [incrementFor, if_pos rfl]
    norm_num
  · show incrementFor "button" 0 10 = some 1
    rw [incrementFor, if_neg (by simp), if_pos (Or.inl rfl)]

/-! ## Index lemmas -/

theorem pyNorm_out_of_range {len : Nat} {i : Int}
    (h : (len : Int) ≤ i ∨ i < -(len : Int)) : pyNorm len i = none := by
  unfold pyNorm
  by_cases hneg : i < 0
  · rw [if_pos hneg, if_neg (by omega)]
  · rw [if_neg hneg, if_neg (by omega)]

theorem pyNorm_neg_in_range {len : Nat} {i : Int}
    (h1 : -(len : Int) ≤ i) (h2 : i ≤ -1) :
    pyNorm len i = some ((len : Int) + i).toNat ∧
      ((len : Int) + i).toNat < len := by
  unfold pyNorm
  rw [if_pos (by omega), if_pos (by omega)]
  exact ⟨rfl, by omega⟩

theorem pyIndex_out_of_range {α : Type} {l : List α} {i : Int}
    (h : (l.length : Int) ≤ i ∨ i < -(l.length : Int)) : pyIndex l i = none := by
  rw [pyIndex, pyNorm_out_of_range h]

theorem pyModify_out_of_range {α : Type} {l : List α} {i : Int} (f : α → α)
    (h : (l.length : Int) ≤ i ∨ i < -(l.length : Int)) : pyModify l i f = l := by
  rw [pyModify, pyNorm_out_of_range h]

theorem pyIndex_neg_in_range {α : Type} {l : List α} {i : Int}
    (h1 : -(l.length : Int) ≤ i) (h2 : i ≤ -1) :
    pyIndex l i = l[((l.length : Int) + i).toNat]? := by
  rw [pyIndex, (pyNorm_neg_in_range h1 h2).1]

theorem pyModify_neg_in_range {α : Type} {l : List α} {i : Int} (f : α → α)
    (h1 : -(l.length : Int) ≤ i) (h2 : i ≤ -1) :
    pyModify l i f = listModify l ((l.length : Int) + i).toNat f := by
  rw [pyModify, (pyNorm_neg_in_range h1 h2).1]

theorem listModify_getElem?_self {α : Type} :
    ∀ (l : List α) (j : Nat) (f : α → α),
      (listModify l j f)[j]? = (l[j]?).map f := by
  intro l
  induction l with
  | nil =>
    intro j f
    cases j <;> simp [listModify]
  | cons x xs ih =>
    intro j f
    cases j with
    | zero => simp [listModify]
    | succ j => simpa [listModify] using ih j f

theorem listModify_getElem?_ne {α : Type} :
    ∀ (l : List α) (i j : Nat) (f : α → α), i ≠ j →
      (listModify l j f)[i]? = l[i]? := by
  intro l
  induction l with
  | nil =>
    intro i j f _
    cases j <;> simp [listModify]
  | cons x xs ih =>
    intro i j f hij
    cases j with
    | zero =>
      cases i with
      | zero => cases hij rfl
      | succ i => simp [listModify]
    | succ j =>
      cases i with
      | zero => simp [listModify]
      | succ i => simpa [listModify] using ih i j f (by omega)

/-! ## C4 (amended) and its counterexample -/

/-- Counterexample to C4 as stated: on the empty manager every index is
outside `[0, count) = [0, 0)`, yet `paramSize ⟨[]⟩ 0` propagates the
`IndexError` (modelled as `none`) instead of handling it locally; moreover a
negative index inside `[-count, -1]` is also outside `[0, count)` but
`getPlugin` returns the addressed plugin rather than the sentinel, and
`changeParameter` with such indices is not a no-op. -/
theorem index_error_counterexample :
    PluginManager.paramSize ⟨[]⟩ 0 = none ∧
    PluginManager.getPlugin
        ⟨[⟨"amp", "urn:amp", "mono", ["in"], ["out"], 0,
          [mkParameter "lv2" "gain" "g" "dial" 1 0 10], none, none⟩]⟩ (-1)
      = some ⟨"amp", "urn:amp", "mono", ["in"], ["out"], 0,
          [mkParameter "lv2" "gain" "g" "dial" 1 0 10], none, none⟩ ∧
    PluginManager.changeParameter
        ⟨[⟨"amp", "urn:amp", "mono", ["in"], ["out"], 0,
          [mkParameter "lv2" "gain" "g" "dial" 1 0 10], none, none⟩]⟩ (-1) (-1) 7
      ≠ ⟨[⟨"amp", "urn:amp", "mono", ["in"], ["out"], 0,
          [mkParameter "lv2" "gain" "g" "dial" 1 0 10], none, none⟩]⟩ := by
  refine ⟨rfl, rfl, ?_⟩
  intro hcon
  have h7 : (PluginManager.changeParameter
      ⟨[⟨"amp", "urn:amp", "mono", ["in"], ["out"], 0,
        [mkParameter "lv2" "gain" "g" "dial" 1 0 10], none, none⟩]⟩
      (-1) (-1) 7).plugins.head?.map (fun p => p.parameters.head?.map (fun q => q.value))
      = some (some 7) := rfl
  rw [hcon] at h7
  simp only [mkParameter, Option.map_some', Option.some.injEq] at h7
  norm_num at h7

/-- C4 (amended): for every index `x` truly out of range in Python
(`x ≥ count` or `x < −count`), `getPlugin` returns the sentinel,
`getParameterNames` returns `[]`, and `changeParameter` is a no-op, all
without raising; `paramSize`, which has no handler, raises `IndexError` to
the caller (`none`); `changeParameter` with a valid plugin index but an
out-of-range parameter index is likewise a handled no-op. -/
theorem index_error_handling :
    (∀ (m : PluginManager) (x : Int),
      ((m.size : Int) ≤ x ∨ x < -(m.size : Int)) →
      m.getPlugin x = none ∧ m.getParameterNames x = [] ∧ m.paramSize x = none ∧
        ∀ (y : Int) (v : ℚ), m.changeParameter x y v = m)
    ∧ (∀ (m : PluginManager) (x y : Int) (v : ℚ) (p : Plugin),
        pyIndex m.plugins x = some p →
        ((p.parameters.length : Int) ≤ y ∨ y < -(p.parameters.length : Int)) →
        m.changeParameter x y v = m) := by
  constructor
  · intro m x hx
    have hnone : pyIndex m.plugins x = none := pyIndex_out_of_range hx
    refine ⟨hnone, ?_, ?_, ?_⟩
    · rw [PluginManager.getParameterNames, hnone]
    · rw [PluginManager.paramSize, hnone]
    · intro y v
      rw [PluginManager.changeParameter, hnone]
  · intro m x y v p hp hy
    simp only [PluginManager.changeParameter, hp, pyIndex_out_of_range hy]

/-- Witness for the amended C4: on a one-plugin manager, index 5 is handled
by `getPlugin`/`getParameterNames`/`changeParameter` and raises in
`paramSize`; a parameter index of 3 on the only plugin is a handled no-op. -/
theorem index_error_handling_witness :
    (PluginManager.getPlugin
        ⟨[⟨"amp", "urn:amp", "mono", ["in"], ["out"], 0,
          [mkParameter "lv2" "gain" "g" "dial" 1 0 10], none, none⟩]⟩ 5 = none ∧
      PluginManager.getParameterNames
        ⟨[⟨"amp", "urn:amp", "mono", ["in"], ["out"], 0,
          [mkParameter "lv2" "gain" "g" "dial" 1 0 10], none, none⟩]⟩ 5 = [] ∧
      PluginManager.paramSize
        ⟨[⟨"amp", "urn:amp", "mono", ["in"], ["out"], 0,
          [mkParameter "lv2" "gain" "g" "dial" 1 0 10], none, none⟩]⟩ 5 = none ∧
      ∀ (y : Int) (v : ℚ), PluginManager.changeParameter
        ⟨[⟨"amp", "urn:amp", "mono", ["in"], ["out"], 0,
          [mkParameter "lv2" "gain" "g" "dial" 1 0 10], none, none⟩]⟩ 5 y v
        = ⟨[⟨"amp", "urn:amp", "mono", ["in"], ["out"], 0,
          [mkParameter "lv2" "gain" "g" "dial" 1 0 10], none, none⟩]⟩) ∧
    PluginManager.changeParameter
        ⟨[⟨"amp", "urn:amp", "mono", ["in"], ["out"], 0,
          [mkParameter "lv2" "gain" "g" "dial" 1 0 10], none, none⟩]⟩ 0 3 2
      = ⟨[⟨"amp", "urn:amp", "mono", ["in"], ["out"], 0,
          [mkParameter "lv2" "gain" "g" "dial" 1 0 10], none, none⟩]⟩ :=
  ⟨index_error_handling.1 _ 5 (by decide),
   index_error_handling.2 _ 0 3 2
     ⟨"amp", "urn:amp", "mono", ["in"], ["out"], 0,
       [mkParameter "lv2" "gain" "g" "dial" 1 0 10], none, none⟩ rfl (by decide)⟩

/-! ## C10: negative in-range indices -/

/-- C10: for a manager with `n ≥ 1` plugins and `-n ≤ x ≤ -1`, `getPlugin x`
returns the plugin at position `n + x` (not the sentinel), and
`changeParameter` with negative in-range plugin and parameter indices sets
the value of the parameter so addressed. -/
theorem negative_index_semantics (m : PluginManager) (x : Int) (v : ℚ)
    (hx1 : -(m.size : Int) ≤ x) (hx2 : x ≤ -1) :
    (m.getPlugin x = m.plugins[((m.size : Int) + x).toNat]? ∧
      m.getPlugin x ≠ none) ∧
    (∀ (y : Int) (p : Plugin) (q : Parameter),
      m.plugins[((m.size : Int) + x).toNat]? = some p →
      -(p.parameters.length : Int) ≤ y → y ≤ -1 →
      p.parameters[((p.parameters.length : Int) + y).toNat]? = some q →
      ((m.changeParameter x y v).plugins[((m.size : Int) + x).toNat]?).map
          (fun p' => p'.parameters[((p.parameters.length : Int) + y).toNat]?)
        = some (some (q.setValue v))) := by
  have hlen : m.size = m.plugins.length := rfl
  have hidx := pyIndex_neg_in_range (l := m.plugins) (i := x)
    (by rw [← hlen]; exact hx1) hx2
  have hbound : ((m.plugins.length : Int) + x).toNat < m.plugins.length := by
    omega
  constructor
  · constructor
    · rw [PluginManager.getPlugin, hidx, hlen]
    · rw [PluginManager.getPlugin, hidx]
      rw [List.getElem?_eq_getElem hbound]
      intro hcon
      cases hcon
  · intro y p q hp hy1 hy2 hq
    have hp' : pyIndex m.plugins x = some p := by
      rw [hidx, ← hlen]
      exact hp
    have hqidx := pyIndex_neg_in_range (l := p.parameters) (i := y) hy1 hy2
    have hq' : pyIndex p.parameters y = some q := by
      rw [hqidx]
      exact hq
    have hqbound : ((p.parameters.length : Int) + y).toNat < p.parameters.length := by
      omega
    simp only [PluginManager.changeParameter, hp', hq']
    rw [pyModify_neg_in_range _ (by rw [← hlen]; exact hx1) hx2, ← hlen]
    rw [listModify_getElem?_self m.plugins ((m.size : Int) + x).toNat]
    rw [hlen] at hp ⊢
    rw [hp]
    simp only [Option.map_some']
    rw [pyModify_neg_in_range _ hy1 hy2]
    rw [listModify_getElem?_self p.parameters ((p.parameters.length : Int) + y).toNat]
    rw [hq]
    rfl

/-- Witness for C10: on a one-plugin manager, `getPlugin (-1)` returns the
plugin (position 0) and `changeParameter (-1) (-1) 7` sets the value of its
last parameter to 7. -/
theorem negative_index_semantics_witness :
    PluginManager.getPlugin
        ⟨[⟨"amp", "urn:amp", "mono", ["in"], ["out"], 0,
          [mkParameter "lv2" "gain" "g" "dial" 1 0 10], none, none⟩]⟩ (-1)
      = [⟨"amp", "urn:amp", "mono", ["in"], ["out"], 0,
          [mkParameter "lv2" "gain" "g" "dial" 1 0 10], none, none⟩][(((1 : Int) + (-1)).toNat)]? ∧
    ((PluginManager.changeParameter
        ⟨[⟨"amp", "urn:amp", "mono", ["in"], ["out"], 0,
          [mkParameter "lv2" "gain" "g" "dial" 1 0 10], none, none⟩]⟩
        (-1) (-1) 7).plugins[(((1 : Int) + (-1)).toNat)]?).map
      (fun p' => p'.parameters[(((1 : Int) + (-1)).toNat)]?)
      = some (some ((mkParameter "lv2" "gain" "g" "dial" 1 0 10).setValue 7)) := by
  have h := negative_index_semantics
    ⟨[⟨"amp", "urn:amp", "mono", ["in"], ["out"], 0,
      [mkParameter "lv2" "gain" "g" "dial" 1 0 10], none, none⟩]⟩ (-1) 7
    (by decide) (by decide)
  exact ⟨h.1.1, h.2 (-1)
    ⟨"amp", "urn:amp", "mono", ["in"], ["out"], 0,
      [mkParameter "lv2" "gain" "g" "dial" 1 0 10], none, none⟩
    (mkParameter "lv2" "gain" "g" "dial" 1 0 10) rfl (by decide) (by decide) rfl⟩

/-! ## C9: clone isolation (heap model) -/

/-- A `Plugin` object as a node of the Python object graph: the mutable
`Parameter` objects live in a separate store and the plugin holds references
(store addresses) to them, matching Python's reference semantics. -/
structure PluginObj where
  name : String
  uri : String
  channels : String
  inputs : List String
  outputs : List String
  bypass : ℚ
  category : Option String
  description : Option String
  parameters : List Nat

/-- The store of `Parameter` objects, addressed by allocation order. -/
abbrev ParamHeap := List Parameter

/-- `Plugin.clone` (plugin_manager.py lines 52-73) over the object graph: a
fresh `Parameter(type=param.type, ..., min=param.minimum, max=param.max)`
cell is allocated per source parameter, `list(self.inputs)`/`list(self.outputs)`
are value copies, and the clone references only the fresh cells. -/
def cloneObj (h : ParamHeap) (p : PluginObj) : ParamHeap × PluginObj :=
  let newCells := p.parameters.map (fun a =>
    let param := h.getD a (mkParameter "" "" "" "" 0 0 0)
    mkParameter param.type param.name param.symbol param.mode
      param.value param.minimum param.max)
  (h ++ newCells,
   { p with
      inputs := p.inputs
      outputs := p.outputs
      parameters := List.range' h.length p.parameters.length })

/-- `param.setValue(v)` through a reference into the store. -/
def setValueAt (h : ParamHeap) (a : Nat) (v : ℚ) : ParamHeap :=
  match h[a]? with
  | some c => h.set a (c.setValue v)
  | none => h

/-- C9: clone isolation.  For a plugin whose parameter references are live in
the store, every reference of the clone is distinct from every reference of
the source (no shared `Parameter` objects), and calling `setValue` through
any of the clone's references leaves every cell referenced by the source —
its value and every other field — exactly as it was before the clone. -/
theorem clone_isolation (h : ParamHeap) (p : PluginObj)
    (hwf : ∀ a ∈ p.parameters, a < h.length) :
    ∀ b ∈ (cloneObj h p).2.parameters, ∀ (v : ℚ), ∀ a ∈ p.parameters,
      b ≠ a ∧ (setValueAt (cloneObj h p).1 b v)[a]? = h[a]? := by
  intro b hb v a ha
  have hble : h.length ≤ b := by
    have hmem : b ∈ List.range' h.length p.parameters.length := by
      simpa [cloneObj] using hb
    exact (List.mem_range'_1.mp hmem).1
  have halt : a < h.length := hwf a ha
  have hne : b ≠ a := by omega
  refine ⟨hne, ?_⟩
  have happ : ((cloneObj h p).1)[a]? = h[a]? :=
    List.getElem?_append_left halt
  rw [setValueAt]
  cases hgb : ((cloneObj h p).1)[b]? with
  | none => exact happ
  | some c =>
    rw [List.getElem?_set_ne (by omega), happ]

/-- Witness for C9: a one-parameter plugin with its cell at address 0; the
clone's reference is address 1, and setting the clone's value to 7 leaves
cell 0 unchanged. -/
theorem clone_isolation_witness :
    (1 : Nat) ≠ 0 ∧
    (setValueAt (cloneObj [mkParameter "lv2" "gain" "g" "dial" 1 0 10]
        ⟨"amp", "urn:amp", "mono", ["in"], ["out"], 0, none, none, [0]⟩).1 1 7)[0]?
      = some (mkParameter "lv2" "gain" "g" "dial" 1 0 10) := by
  have h := clone_isolation [mkParameter "lv2" "gain" "g" "dial" 1 0 10]
    ⟨"amp", "urn:amp", "mono", ["in"], ["out"], 0, none, none, [0]⟩
    (by
      intro a ha
      rw [List.mem_singleton] at ha
      subst ha
      decide) 1 (List.mem_singleton.mpr rfl) 7 0 (List.mem_singleton.mpr rfl)
  exact ⟨h.1, h.2.trans (by rfl)⟩

/-! ## JSON documents and manifest parsing -/

/-- A parsed JSON document (the value `json.load` produces). -/
inductive Json : Type where
  | null : Json
  | bool : Bool → Json
  | num : ℚ → Json
  | str : String → Json
  | arr : List Json → Json
  | obj : List (String × Json) → Json

/-- Python exceptions relevant to the manifest code.  `illTyped` marks the
boundary of the typed fragment modelled here: a manifest field present with a
type outside the §6 schema (Python would store the value as-is and possibly
fail later); no theorem below reaches that constructor. -/
inductive PyExn : Type where
  | valueError : PyExn
  | keyError : PyExn
  | attrError : PyExn
  | typeError : PyExn
  | illTyped : PyExn
deriving DecidableEq

/-- Failures of `open`/`json.load`: missing file or undecodable document. -/
inductive ReadErr : Type where
  | fileNotFound : ReadErr
  | decodeError : ReadErr
deriving DecidableEq

/-- First-match association lookup (Python dict access for our documents). -/
def alookup {β : Type} (l : List (String × β)) (k : String) : Option β :=
  (l.find? (fun p => p.1 == k)).map (fun p => p.2)

/-- Character-level prefix test (needle, hay). -/
def startsChars : List Char → List Char → Bool
  | [], _ => true
  | _ :: _, [] => false
  | x :: xs, y :: ys => x == y && startsChars xs ys

/-- Character-level substring test, for Python's `in` on strings. -/
def containsChars (needle : List Char) : List Char → Bool
  | [] => needle.isEmpty
  | y :: ys => startsChars needle (y :: ys) || containsChars needle ys

/-- Python `"k" in data`: key test on a dict, element test on a list (where
equality with a string only holds for an equal string), substring test on a
string, and `TypeError` for non-iterable values. -/
def jsonContains (data : Json) (k : String) : Except PyExn Bool :=
  match data with
  | .obj kvs => .ok (alookup kvs k).isSome
  | .arr xs =>
    .ok (xs.any (fun x => match x with | .str s => s == k | _ => false))
  | .str s => .ok (containsChars k.data s.data)
  | _ => .error .typeError

/-- Python `data["k"]` with a string key: dict lookup (`KeyError` if absent),
`TypeError` on any non-dict. -/
def jsonGetItem (data : Json) (k : String) : Except PyExn Json :=
  match data with
  | .obj kvs =>
    match alookup kvs k with
    | some v => .ok v
    | none => .error .keyError
  | _ => .error .typeError

/-- Python `for x in v`: a list yields its elements, a string its characters,
a dict its keys; other values raise `TypeError`. -/
def pyIter (v : Json) : Except PyExn (List Json) :=
  match v with
  | .arr xs => .ok xs
  | .str s => .ok (s.data.map (fun c => Json.str (String.mk [c])))
  | .obj kvs => .ok (kvs.map (fun p => Json.str p.1))
  | _ => .error .typeError

/-- `d.get(k, default)` for a string field of the manifest schema. -/
def getStrD (kvs : List (String × Json)) (k default : String) :
    Except PyExn String :=
  match alookup kvs k with
  | none => .ok default
  | some (.str s) => .ok s
  | some _ => .error .illTyped

/-- `d[k]` for a required string field (`KeyError` when missing). -/
def getStrReq (kvs : List (String × Json)) (k : String) : Except PyExn String :=
  match alookup kvs k with
  | none => .error .keyError
  | some (.str s) => .ok s
  | some _ => .error .illTyped

/-- `d.get(k, default)` for a numeric field. -/
def getNumD (kvs : List (String × Json)) (k : String) (default : ℚ) :
    Except PyExn ℚ :=
  match alookup kvs k with
  | none => .ok default
  | some (.num q) => .ok q
  | some _ => .error .illTyped

/-- `d[k]` for a required numeric field (`KeyError` when missing). -/
def getNumReq (kvs : List (String × Json)) (k : String) : Except PyExn ℚ :=
  match alookup kvs k with
  | none => .error .keyError
  | some (.num q) => .ok q
  | some _ => .error .illTyped

/-- `d.get(k)` for an optional string field (absent or JSON null → `None`). -/
def getOptStr (kvs : List (String × Json)) (k : String) :
    Except PyExn (Option String) :=
  match alookup kvs k with
  | none => .ok none
  | some .null => .ok none
  | some (.str s) => .ok (some s)
  | some _ => .error .illTyped

def allStrings : List Json → Option (List String)
  | [] => some []
  | .str s :: rest => (allStrings rest).map (fun l => s :: l)
  | _ => none

/-- `d.get(k, default)` for a list-of-strings field. -/
def getStrListD (kvs : List (String × Json)) (k : String)
    (default : List String) : Except PyExn (List String) :=
  match alookup kvs k with
  | none => .ok default
  | some (.arr xs) =>
    match allStrings xs with
    | some l => .ok l
    | none => .error .illTyped
  | some _ => .error .illTyped

/-- `d.get("parameters", [])`. -/
def getArrD (kvs : List (String × Json)) (k : String) :
    Except PyExn (List Json) :=
  match alookup kvs k with
  | none => .ok []
  | some (.arr xs) => .ok xs
  | some _ => .error .illTyped

/-- One pass of the parameter loop in `parse_plugin_data` (plugin_manager.py
lines 166-179): builds `Parameter(...)`; a missing `symbol`/`min`/`max`
raises `KeyError` (field accesses in the source's textual order), a non-dict
entry raises `AttributeError`. -/
def parseParameter (d : Json) : Except PyExn Parameter :=
  match d with
  | .obj kvs => do
    let type ← getStrD kvs "type" "lv2"
    let name ← getStrD kvs "name" "parameter"
    let symbol ← getStrReq kvs "symbol"
    let mode ← getStrD kvs "mode" "dial"
    let mn ← getNumReq kvs "min"
    let mx ← getNumReq kvs "max"
    let value ← getNumD kvs "default" 1
    return mkParameter type name symbol mode value mn mx
  | _ => .error .attrError

/-- The parameter loop (lines 164-179): `except KeyError` skips just that
parameter; any other exception propagates. -/
def parseParameters : List Json → Except PyExn (List Parameter)
  | [] => .ok []
  | d :: rest =>
    match parseParameter d with
    | .ok p => (parseParameters rest).map (fun ps => p :: ps)
    | .error .keyError => parseParameters rest
    | .error e => .error e

/-- `PluginManager.parse_plugin_data` (lines 151-190): raises `ValueError`
when `uri` is missing, `AttributeError` on a non-dict entry; parameter
entries missing a required key are skipped while the plugin still loads. -/
def parse_plugin_data (d : Json) : Except PyExn Plugin :=
  match d with
  | .obj kvs => do
    let name ← getStrD kvs "name" "plugin"
    let uri ← (match alookup kvs "uri" with
      | none => .error .valueError
      | some (.str s) => .ok s
      | some _ => .error .illTyped : Except PyExn String)
    let bypass ← getNumD kvs "bypass" 0
    let channels ← getStrD kvs "channels" "mono"
    let inputs ← getStrListD kvs "inputs" ["in"]
    let outputs ← getStrListD kvs "outputs" ["out"]
    let category ← getOptStr kvs "category"
    let description ← getOptStr kvs "description"
    let paramsJson ← getArrD kvs "parameters"
    let parameters ← parseParameters paramsJson
    return ⟨name, uri, channels, inputs, outputs, bypass, parameters,
      category, description⟩
  | _ => .error .attrError

/-- The per-entry loop of `initFromJSON` (lines 136-140), shared with
`load_plugin_manifests`: `addPlugin` appends as the loop runs, a `ValueError`
from `parse_plugin_data` is caught and the entry skipped, any other
exception escapes with the plugins accumulated so far. -/
def initLoop (acc : List Plugin) : List Json → List Plugin × Option PyExn
  | [] => (acc, none)
  | d :: rest =>
    match parse_plugin_data d with
    | .ok p => initLoop (acc ++ [p]) rest
    | .error .valueError => initLoop acc rest
    | .error e => (acc, some e)

/-- Observable outcome of `initFromJSON`: the explicit `-1` failure return,
a normal `None` return with the resulting manager, or an uncaught exception
together with the manager as mutated so far. -/
inductive InitOutcome : Type where
  | retNeg1 : InitOutcome
  | retNone : PluginManager → InitOutcome
  | raised : PyExn → PluginManager → InitOutcome

/-- `PluginManager.initFromJSON` (lines 129-149).  The input is `.error` when
`open`/`json.load` fails; those two handlers return `-1`.  A decoded document
without a "plugins" member raises `ValueError`, which the third handler
catches (printing "JSON Error: …") before the method falls through and
returns `None`.  A `TypeError`/`AttributeError` from a non-iterable
"plugins" member or a non-dict entry is not caught by any handler. -/
def initFromJSON (m : PluginManager) (input : Except ReadErr Json) :
    InitOutcome :=
  match input with
  | .error _ => .retNeg1
  | .ok data =>
    match jsonContains data "plugins" with
    | .error e => .raised e m
    | .ok false => .retNone m
    | .ok true =>
      match jsonGetItem data "plugins" with
      | .error e => .raised e m
      | .ok v =>
        match pyIter v with
        | .error e => .raised e m
        | .ok entries =>
          match initLoop m.plugins entries with
          | (ps, none) => .retNone ⟨ps⟩
          | (ps, some e) => .raised e ⟨ps⟩

/-! ## C5: initFromJSON failure behaviour -/

theorem initFromJSON_ok_ne_neg1 (m : PluginManager) (data : Json) :
    initFromJSON m (Except.ok data) ≠ InitOutcome.retNeg1 := by
  rw [initFromJSON]
  cases hc : jsonContains data "plugins" with
  | error e => simp
  | ok b =>
    cases b with
    | false => simp
    | true =>
      cases hg : jsonGetItem data "plugins" with
      | error e => simp
      | ok v =>
        cases hi : pyIter v with
        | error e => simp [hi]
        | ok entries =>
          rcases hl : initLoop m.plugins entries with ⟨ps, oe⟩
          cases oe <;> simp [hi, hl]

/-- An entry inside the modelled schema: parsing it either succeeds or
raises exactly the `ValueError` that the loop catches. -/
def entryParses (d : Json) : Bool :=
  match parse_plugin_data d with
  | .ok _ => true
  | .error .valueError => true
  | .error _ => false

theorem initLoop_all_parse :
    ∀ (entries : List Json) (acc : List Plugin),
      (∀ d ∈ entries, entryParses d = true) →
      initLoop acc entries =
        (acc ++ entries.filterMap (fun d => (parse_plugin_data d).toOption), none) := by
  intro entries
  induction entries with
  | nil =>
    intro acc _
    simp [initLoop]
  | cons d rest ih =>
    intro acc hall
    have hd := hall d (by simp)
    rw [initLoop]
    cases hp : parse_plugin_data d with
    | ok p =>
      show initLoop (acc ++ [p]) rest = _
      rw [ih (acc ++ [p]) (fun x hx => hall x (List.mem_cons_of_mem d hx))]
      simp [List.filterMap_cons, hp, Except.toOption]
    | error e =>
      have he : e = PyExn.valueError := by
        rw [entryParses, hp] at hd
        cases e <;> first | rfl | cases hd
      subst he
      show initLoop acc rest = _
      rw [ih acc (fun x hx => hall x (List.mem_cons_of_mem d hx))]
      simp [List.filterMap_cons, hp, Except.toOption]

/-- C5 (amended): `initFromJSON` returns the failure value `-1` exactly when
the file is unreadable or not decodable as JSON.  A decodable document whose
top level has no "plugins" member is reported with a diagnostic but returns
normally (`None`) with nothing loaded.  When the top level is an object whose
"plugins" member is a list of schema-conforming entries, each entry is parsed
independently: an entry missing its required `uri` is skipped with a
diagnostic and every remaining entry of the batch is still loaded, in order. -/
theorem initFromJSON_spec :
    (∀ (m : PluginManager) (input : Except ReadErr Json),
      initFromJSON m input = InitOutcome.retNeg1 ↔ ∃ e, input = Except.error e)
    ∧ (∀ (m : PluginManager) (kvs : List (String × Json)),
        alookup kvs "plugins" = none →
        initFromJSON m (Except.ok (Json.obj kvs)) = InitOutcome.retNone m)
    ∧ (∀ (m : PluginManager) (kvs : List (String × Json)) (entries : List Json),
        alookup kvs "plugins" = some (Json.arr entries) →
        (∀ d ∈ entries, entryParses d = true) →
        initFromJSON m (Except.ok (Json.obj kvs)) =
          InitOutcome.retNone
            ⟨m.plugins ++ entries.filterMap (fun d => (parse_plugin_data d).toOption)⟩) := by
  refine ⟨?_, ?_, ?_⟩
  · intro m input
    constructor
    · intro h
      cases input with
      | error e => exact ⟨e, rfl⟩
      | ok data => exact absurd h (initFromJSON_ok_ne_neg1 m data)
    · rintro ⟨e, rfl⟩
      rfl
  · intro m kvs hnone
    rw [initFromJSON]
    have hc : jsonContains (Json.obj kvs) "plugins" = .ok false := by
      rw [jsonContains, hnone]
      rfl
    rw [hc]
  · intro m kvs entries hsome hall
    have hc : jsonContains (Json.obj kvs) "plugins" = .ok true := by
      rw [jsonContains, hsome]
      rfl
    have hg : jsonGetItem (Json.obj kvs) "plugins" = .ok (Json.arr entries) := by
      rw [jsonGetItem, hsome]
    rw [initFromJSON, hc, hg]
    show (match pyIter (Json.arr entries) with
      | .error e => InitOutcome.raised e m
      | .ok entries =>
        match initLoop m.plugins entries with
        | (ps, none) => InitOutcome.retNone ⟨ps⟩
        | (ps, some e) => InitOutcome.raised e ⟨ps⟩) = _
    rw [show pyIter (Json.arr entries) = .ok entries from rfl]
    show (match initLoop m.plugins entries with
      | (ps, none) => InitOutcome.retNone ⟨ps⟩
      | (ps, some e) => InitOutcome.raised e ⟨ps⟩) = _
    rw [initLoop_all_parse entries m.plugins hall]

/-- Counterexample to C5 as stated: the document `{}` is readable and
decodes, but is not an object containing a "plugins" list, so the claim
demands a failure result; the code instead catches its own `ValueError` in
the generic third handler and returns `None` — the same return value as a
successful call — having loaded nothing. -/
theorem initFromJSON_counterexample :
    initFromJSON ⟨[]⟩ (Except.ok (Json.obj [])) = InitOutcome.retNone ⟨[]⟩ ∧
    InitOutcome.retNone ⟨[]⟩ ≠ InitOutcome.retNeg1 := by
  refine ⟨rfl, ?_⟩
  intro h
  cases h

/-- Witness for the amended C5: an unreadable file returns `-1`; a two-entry
manifest whose second entry lacks `uri` loads exactly the first entry. -/
theorem initFromJSON_spec_witness :
    initFromJSON ⟨[]⟩ (Except.error ReadErr.decodeError) = InitOutcome.retNeg1 ∧
    initFromJSON ⟨[]⟩ (Except.ok (Json.obj [("plugins", Json.arr
        [Json.obj [("uri", Json.str "urn:a")],
         Json.obj [("name", Json.str "nameless")]])]))
      = InitOutcome.retNone
          ⟨[⟨"plugin", "urn:a", "mono", ["in"], ["out"], 0, [], none, none⟩]⟩ := by
  constructor
  · exact (initFromJSON_spec.1 ⟨[]⟩ (Except.error ReadErr.decodeError)).mpr
      ⟨ReadErr.decodeError, rfl⟩
  · have h := initFromJSON_spec.2.2 ⟨[]⟩
      [("plugins", Json.arr
        [Json.obj [("uri", Json.str "urn:a")],
         Json.obj [("name", Json.str "nameless")]])]
      [Json.obj [("uri", Json.str "urn:a")],
       Json.obj [("name", Json.str "nameless")]]
      rfl (by decide)
    exact h.trans (by rfl)

/-! ## C6: manifest loader -/

/-- `filename.endswith(".json")` (plugin_manager.py line 199), at the
character level (case-sensitive, as in the source). -/
def endsWithJson (n : String) : Bool := ".json".data.isSuffixOf n.data

/-- Opening a listed file by name: the listing pairs each directory entry
with the result of `open` + `json.load` on it. -/
def lookupFile (listing : List (String × Except ReadErr Json)) (name : String) :
    Option (Except ReadErr Json) :=
  alookup listing name

/-- Document-shape normalization of `load_plugin_manifests` (lines 212-216):
an object with a "plugins" member yields that member for iteration, any
other object is a single bare plugin entry, a non-object yields no entry. -/
def manifestEntries (data : Json) : Except PyExn (List Json) :=
  match data with
  | .obj kvs =>
    match alookup kvs "plugins" with
    | some v => pyIter v
    | none => .ok [data]
  | _ => .ok []

/-- The file loop of `load_plugin_manifests` (lines 198-222), over the sorted
file names: non-".json" names are skipped, a read/decode failure skips the
file with a diagnostic, entries are parsed with the shared per-entry loop. -/
def loadLoop (listing : List (String × Except ReadErr Json)) :
    List String → List Plugin → Except PyExn (List Plugin)
  | [], acc => .ok acc
  | name :: rest, acc =>
    if ¬ endsWithJson name then loadLoop listing rest acc
    else
      match lookupFile listing name with
      | none => loadLoop listing rest acc
      | some (.error _) => loadLoop listing rest acc
      | some (.ok data) =>
        match manifestEntries data with
        | .error e => .error e
        | .ok entries =>
          match initLoop acc entries with
          | (acc2, none) => loadLoop listing rest acc2
          | (_, some e) => .error e

/-- `load_plugin_manifests` (lines 193-224).  `none` models `os.path.isdir`
returning false (missing directory → empty result); otherwise the listing's
names are sorted (a stable comparison sort, as `sorted`) and processed in
order. -/
def load_plugin_manifests
    (manifest_dir : Option (List (String × Except ReadErr Json))) :
    Except PyExn (List Plugin) :=
  match manifest_dir with
  | none => .ok []
  | some listing =>
    loadLoop listing ((listing.map Prod.fst).insertionSort (· ≤ ·)) []

theorem alookup_cons {β : Type} (p : String × β) (l : List (String × β))
    (k : String) :
    alookup (p :: l) k = if p.1 == k then some p.2 else alookup l k := by
  by_cases h : (p.1 == k) = true
  · simp [alookup, List.find?, h]
  · have h' : (p.1 == k) = false := by simpa using h
    simp [alookup, List.find?, h']

theorem alookup_of_mem_nodup {β : Type} {l : List (String × β)} {k : String}
    {v : β} (hnd : (l.map Prod.fst).Nodup) (hm : (k, v) ∈ l) :
    alookup l k = some v := by
  induction l with
  | nil => cases hm
  | cons p l ih =>
    rw [List.map_cons, List.nodup_cons] at hnd
    rcases List.mem_cons.mp hm with rfl | hm'
    · rw [alookup_cons]
      simp
    · have hp : p.1 ≠ k := by
        intro hcon
        exact hnd.1 (hcon ▸ List.mem_map_of_mem Prod.fst hm')
      rw [alookup_cons, if_neg (by simpa using hp)]
      exact ih hnd.2 hm'

theorem alookup_perm {β : Type} {l₁ l₂ : List (String × β)}
    (hp : List.Perm l₁ l₂) :
    (l₁.map Prod.fst).Nodup → ∀ k, alookup l₁ k = alookup l₂ k := by
  induction hp with
  | nil =>
    intro _ k
    rfl
  | cons x h ih =>
    intro hnd k
    rw [List.map_cons, List.nodup_cons] at hnd
    rw [alookup_cons, alookup_cons]
    by_cases hb : (x.1 == k) = true
    · rw [if_pos hb, if_pos hb]
    · rw [if_neg hb, if_neg hb]
      exact ih hnd.2 k
  | swap x y l =>
    intro hnd k
    rw [List.map_cons, List.map_cons, List.nodup_cons] at hnd
    have hyx : y.1 ≠ x.1 := by
      intro hcon
      exact hnd.1 (hcon ▸ List.mem_cons_self _ _)
    rw [alookup_cons, alookup_cons, alookup_cons, alookup_cons]
    by_cases hx : (x.1 == k) = true <;> by_cases hy : (y.1 == k) = true
    · exact absurd (by
        have h1 : x.1 = k := by simpa using hx
        have h2 : y.1 = k := by simpa using hy
        rw [h1, ← h2]) hyx
    · rw [if_neg hy, if_pos hx, if_pos hx]
    · rw [if_pos hy, if_neg hx, if_pos hy]
    · rw [if_neg hy, if_neg hx, if_neg hx, if_neg hy]
  | trans h₁ h₂ ih₁ ih₂ =>
    intro hnd k
    have hnd₂ := (List.Perm.nodup_iff (h₁.map Prod.fst)).mp hnd
    exact (ih₁ hnd k).trans (ih₂ hnd₂ k)

theorem alookup_filter_ne {β : Type} (l : List (String × β)) (name m : String)
    (hm : m ≠ name) :
    alookup (l.filter (fun p => p.1 != name)) m = alookup l m := by
  induction l with
  | nil => rfl
  | cons p l ih =>
    by_cases hpn : (p.1 != name) = true
    · rw [List.filter_cons, if_pos hpn, alookup_cons, alookup_cons, ih]
    · have hpn' : p.1 = name := by simpa using hpn
      rw [List.filter_cons, if_neg hpn, alookup_cons,
        if_neg (by simp [hpn', Ne.symm hm])]
      exact ih

theorem map_fst_filter_ne {β : Type} (l : List (String × β)) (name : String) :
    (l.filter (fun p => p.1 != name)).map Prod.fst
      = (l.map Prod.fst).filter (fun s => s != name) := by
  induction l with
  | nil => rfl
  | cons p l ih =>
    by_cases h : (p.1 != name) = true
    · rw [List.filter_cons, if_pos h, List.map_cons, List.map_cons,
        List.filter_cons, if_pos h, ih]
    · rw [List.filter_cons, if_neg h, List.map_cons, List.filter_cons,
        if_neg h, ih]

theorem insertionSort_names_perm {l₁ l₂ : List String} (hp : List.Perm l₁ l₂) :
    l₁.insertionSort (· ≤ ·) = l₂.insertionSort (· ≤ ·) :=
  List.eq_of_perm_of_sorted
    (((List.perm_insertionSort _ l₁).trans hp).trans
      (List.perm_insertionSort _ l₂).symm)
    (List.sorted_insertionSort _ l₁) (List.sorted_insertionSort _ l₂)

theorem insertionSort_filter (l : List String) (q : String → Bool) :
    (l.filter q).insertionSort (· ≤ ·) = (l.insertionSort (· ≤ ·)).filter q :=
  List.eq_of_perm_of_sorted
    ((List.perm_insertionSort _ _).trans
      ((List.perm_insertionSort _ l).symm.filter q))
    (List.sorted_insertionSort _ _)
    ((List.sorted_insertionSort _ l).sublist (List.filter_sublist _))

theorem loadLoop_congr_on (l₁ l₂ : List (String × Except ReadErr Json)) :
    ∀ (names : List String) (acc : List Plugin),
      (∀ m ∈ names, lookupFile l₁ m = lookupFile l₂ m) →
      loadLoop l₁ names acc = loadLoop l₂ names acc := by
  intro names
  induction names with
  | nil =>
    intro acc _
    rfl
  | cons m rest ih =>
    intro acc hall
    have hm := hall m (List.mem_cons_self _ _)
    have hrest : ∀ m' ∈ rest, lookupFile l₁ m' = lookupFile l₂ m' :=
      fun m' hm' => hall m' (List.mem_cons_of_mem m hm')
    rw [loadLoop, loadLoop, hm]
    by_cases hj : endsWithJson m = true
    · rw [if_neg (by simp [hj]), if_neg (by simp [hj])]
      cases hfm : lookupFile l₂ m with
      | none =>
        simp only [hfm]
        exact ih acc hrest
      | some content =>
        cases content with
        | error e =>
          simp only [hfm]
          exact ih acc hrest
        | ok data =>
          simp only [hfm]
          cases hme : manifestEntries data with
          | error e => simp only [hme]
          | ok entries =>
            simp only [hme]
            rcases hil : initLoop acc entries with ⟨acc2, oe⟩
            cases oe with
            | none =>
              simp only [hil]
              exact ih acc2 hrest
            | some e => simp only [hil]
    · rw [if_pos (by simpa using hj), if_pos (by simpa using hj)]
      exact ih acc hrest

theorem loadLoop_drop_name (l : List (String × Except ReadErr Json))
    (name : String) (r : ReadErr) (hl : lookupFile l name = some (Except.error r)) :
    ∀ (names : List String) (acc : List Plugin),
      loadLoop l names acc = loadLoop l (names.filter (fun s => s != name)) acc := by
  intro names
  induction names with
  | nil =>
    intro acc
    rfl
  | cons m rest ih =>
    intro acc
    by_cases hm : m = name
    · subst hm
      rw [List.filter_cons, if_neg (by simp)]
      rw [loadLoop]
      by_cases hj : endsWithJson m = true
      · rw [if_neg (by simp [hj]), hl]
        exact ih acc
      · rw [if_pos (by simpa using hj)]
        exact ih acc
    · rw [List.filter_cons, if_pos (by simpa using hm)]
      rw [loadLoop, loadLoop]
      by_cases hj : endsWithJson m = true
      · rw [if_neg (by simp [hj]), if_neg (by simp [hj])]
        cases hfm : lookupFile l m with
        | none =>
          simp only [hfm]
          exact ih acc
        | some content =>
          cases content with
          | error e =>
            simp only [hfm]
            exact ih acc
          | ok data =>
            simp only [hfm]
            cases hme : manifestEntries data with
            | error e => simp only [hme]
            | ok entries =>
              simp only [hme]
              rcases hil : initLoop acc entries with ⟨acc2, oe⟩
              cases oe with
              | none =>
                simp only [hil]
                exact ih acc2
              | some e => simp only [hil]
      · rw [if_pos (by simpa using hj), if_pos (by simpa using hj)]
        exact ih acc

/-- C6: `load_plugin_manifests` returns the plugins parsed from the
directory's ".json" manifest files processed in sorted filename order — the
result does not depend on the order the directory listing is produced in; a
file whose read or JSON decode fails contributes nothing while the remaining
files still load (removing such a file changes nothing); and a missing
directory yields the empty list rather than an error. -/
theorem load_plugin_manifests_spec :
    (load_plugin_manifests none = Except.ok [])
    ∧ (∀ l₁ l₂ : List (String × Except ReadErr Json),
        (l₁.map Prod.fst).Nodup → List.Perm l₁ l₂ →
        load_plugin_manifests (some l₁) = load_plugin_manifests (some l₂))
    ∧ (∀ (l : List (String × Except ReadErr Json)) (name : String) (r : ReadErr),
        (l.map Prod.fst).Nodup → (name, Except.error r) ∈ l →
        load_plugin_manifests (some l)
          = load_plugin_manifests (some (l.filter (fun p => p.1 != name)))) := by
  refine ⟨rfl, ?_, ?_⟩
  · intro l₁ l₂ hnd hp
    show loadLoop l₁ ((l₁.map Prod.fst).insertionSort (· ≤ ·)) []
      = loadLoop l₂ ((l₂.map Prod.fst).insertionSort (· ≤ ·)) []
    rw [insertionSort_names_perm (hp.map Prod.fst)]
    exact loadLoop_congr_on l₁ l₂ _ [] (fun m _ => alookup_perm hp hnd m)
  · intro l name r hnd hmem
    have hl : lookupFile l name = some (Except.error r) :=
      alookup_of_mem_nodup hnd hmem
    show loadLoop l ((l.map Prod.fst).insertionSort (· ≤ ·)) []
      = loadLoop (l.filter (fun p => p.1 != name))
          (((l.filter (fun p => p.1 != name)).map Prod.fst).insertionSort (· ≤ ·)) []
    rw [loadLoop_drop_name l name r hl _ []]
    rw [show ((l.map Prod.fst).insertionSort (· ≤ ·)).filter (fun s => s != name)
        = ((l.filter (fun p => p.1 != name)).map Prod.fst).insertionSort (· ≤ ·) from by
      rw [map_fst_filter_ne, insertionSort_filter]]
    apply loadLoop_congr_on
    intro m hmem2
    have h1 : m ∈ ((l.filter (fun p => p.1 != name)).map Prod.fst) :=
      (List.mem_insertionSort _).mp hmem2
    rcases List.mem_map.mp h1 with ⟨p, hpmem, hpm⟩
    have hbne := List.of_mem_filter hpmem
    have hmne : m ≠ name := by
      intro hcon
      rw [← hpm] at hcon
      simp [hcon] at hbne
    exact (alookup_filter_ne l name m hmne).symm

/-- Witness for C6: a listing holding one corrupt manifest and one valid
single-plugin manifest loads exactly the valid file's plugin in either
listing order, and dropping the corrupt file changes nothing. -/
theorem load_plugin_manifests_spec_witness :
    load_plugin_manifests (some
        [("b.json", Except.error ReadErr.decodeError),
         ("a.json", Except.ok (Json.obj [("uri", Json.str "urn:a")]))])
      = load_plugin_manifests (some
        [("a.json", Except.ok (Json.obj [("uri", Json.str "urn:a")])),
         ("b.json", Except.error ReadErr.decodeError)]) ∧
    load_plugin_manifests (some
        [("b.json", Except.error ReadErr.decodeError),
         ("a.json", Except.ok (Json.obj [("uri", Json.str "urn:a")]))])
      = load_plugin_manifests (some
        [("a.json", Except.ok (Json.obj [("uri", Json.str "urn:a")]))]) ∧
    load_plugin_manifests (some
        [("a.json", Except.ok (Json.obj [("uri", Json.str "urn:a")]))])
      = Except.ok
          [⟨"plugin", "urn:a", "mono", ["in"], ["out"], 0, [], none, none⟩] := by
  refine ⟨?_, ?_, by rfl⟩
  · exact load_plugin_manifests_spec.2.1 _ _ (by decide)
      (List.Perm.swap _ _ _)
  · have h := load_plugin_manifests_spec.2.2
      [("b.json", Except.error ReadErr.decodeError),
       ("a.json", Except.ok (Json.obj [("uri", Json.str "urn:a")]))]
      "b.json" ReadErr.decodeError (by decide) (by simp)
    exact h.trans (by rfl)

/-! ## C7: device scan -/

/-- The marker directory name `SCAN_FOR_DIR` (offboard.py line 8). -/
def SCAN_FOR_DIR : String := "multifx"

/-- `dev_fs.filterdir(dname, dirs=[marker])` over one subdirectory's
children: pyfs's `match_dir` is `info.is_file or match(patterns, info.name)`,
so directories are kept only when their name matches the pattern while files
always pass through. -/
def filterdirMarker (children : List (String × Entry)) (marker : String) :
    List (String × Entry) :=
  children.filter (fun p => !p.2.isDir || (p.1 == marker))

/-- The inner loop of `scan_devices` (offboard.py lines 35-39) on one
subdirectory: only the first filtered entry is ever examined — `break` on a
file, success on a directory (which then necessarily equals the marker). -/
def scanSubdir (children : List (String × Entry)) (marker : String) : Bool :=
  match filterdirMarker children marker with
  | [] => false
  | (_, e) :: _ => e.isDir

/-- The subdirectory loop of `scan_devices` (lines 30-40): files at the
candidate's top level are skipped; the first subdirectory whose scan succeeds
wins, returning the root `<candidate>/<subdir>/<marker>` identified by the
candidate index and the subdirectory name. -/
def scanCandidate (i : Nat) : FSRoot → Option (Nat × String)
  | [] => none
  | (dname, Entry.dir children) :: rest =>
    if scanSubdir children SCAN_FOR_DIR then some (i, dname)
    else scanCandidate i rest
  | (_, Entry.file _) :: rest => scanCandidate i rest

/-- The candidate loop of `scan_devices` (lines 27-43): a candidate that
fails to open (`fs.errors.CreateFailed`, modelled `none`) is skipped; the
first candidate that opens commits the scan — line 41's `return None` stops
without trying later candidates. -/
def scanLoop : Nat → List (Option FSRoot) → Option (Nat × String)
  | _, [] => none
  | i, none :: rest => scanLoop (i + 1) rest
  | i, some devFs :: _ => scanCandidate i devFs

/-- `scan_devices` (offboard.py lines 22-43) over the ordered candidate
mount-point list `USB_DIRS`. -/
def scan_devices (usbDirs : List (Option FSRoot)) : Option (Nat × String) :=
  scanLoop 0 usbDirs

/-- C7 failing input: a mounted candidate with one subdirectory `KINGSTON`
whose listing yields the file `readme.txt` before the directory `multifx`.
The subdirectory does contain a child directory named exactly the marker
(second and third conjuncts), so the claim — and the function's own
docstring — require the root `KINGSTON/multifx`; the code instead `break`s
on the file that pyfs's `filterdir` passes through and reports no device
(first conjunct).  With the marker listed first the same tree is found
(fourth conjunct): the result depends on listing order. -/
theorem scan_devices_break_on_file :
    scan_devices [some [("KINGSTON",
        Entry.dir [("readme.txt", Entry.file ""), ("multifx", Entry.dir [])])]]
      = none ∧
    fsExists [("readme.txt", Entry.file ""), ("multifx", Entry.dir [])]
      SCAN_FOR_DIR = true ∧
    fsIsDir [("readme.txt", Entry.file ""), ("multifx", Entry.dir [])]
      SCAN_FOR_DIR = true ∧
    scan_devices [some [("KINGSTON",
        Entry.dir [("multifx", Entry.dir []), ("readme.txt", Entry.file "")])]]
      = some (0, "KINGSTON") :=
  ⟨rfl, rfl, rfl, rfl⟩
